import Mathlib

/-!
Verification of the IDE-Arena log-trajectory parser.

The parser lives in `src/app/api/sweagent/logs/route.ts` (functions
`normalizeLine`, `parseLogFile`, `parseTestResults`, `parseLabTrainingMetrics`,
`extractDuration`, `determineFinalSuccess`, `extractDiffs`, `extractTimestamp`)
and `src/app/page.tsx` (functions `parseTrajectoryFilename`,
`parsePassFailFromLogText`, `getTaskIdFromFilename`, `formatTaskIdToTitle`).

JavaScript strings are modelled as lists of characters (`Str := List Char`);
string operations (`trim`, `includes`, `split`, `replace`) and the concrete
regular expressions used by the source are embedded as executable functions on
`Str`.  All patterns relevant to the claims are ASCII, so modelling at the
code-point level (rather than UTF-16 code units) is faithful on every input a
claim touches; case conversion is the ASCII mapping used by both JS and Lean
on ASCII text.
-/

namespace IDEArena

/-- JavaScript strings, modelled as lists of Unicode code points. -/
abbrev Str := List Char

/-- The whitespace class of JavaScript (`\s`, and the set trimmed by
`String.prototype.trim`): ASCII whitespace, NBSP, BOM and the Unicode
space separators and line terminators. -/
def jsWs (c : Char) : Bool :=
  c = ' ' ∨ c = '\t' ∨ c = '\n' ∨ c = '\r' ∨
  c = Char.ofNat 0x0b ∨ c = Char.ofNat 0x0c ∨
  c = Char.ofNat 0xa0 ∨ c = Char.ofNat 0x1680 ∨
  (Char.ofNat 0x2000 ≤ c ∧ c ≤ Char.ofNat 0x200a) ∨
  c = Char.ofNat 0x2028 ∨ c = Char.ofNat 0x2029 ∨
  c = Char.ofNat 0x202f ∨ c = Char.ofNat 0x205f ∨
  c = Char.ofNat 0x3000 ∨ c = Char.ofNat 0xfeff

/-- Line terminators, the characters a JavaScript regex `.` does not match. -/
def jsLineTerm (c : Char) : Bool :=
  c = '\n' ∨ c = '\r' ∨ c = Char.ofNat 0x2028 ∨ c = Char.ofNat 0x2029

/-- A character matched by the JavaScript regex `.` (no `s` flag). -/
def jsDot (c : Char) : Bool := ¬ jsLineTerm c

/-- Strip trailing whitespace (the second half of `trim`). -/
def trimRight (l : Str) : Str := (l.reverse.dropWhile jsWs).reverse

/-- `String.prototype.trim`: strip leading and trailing whitespace. -/
def trim (l : Str) : Str := trimRight (l.dropWhile jsWs)

/-- `a.isPrefixOf`-style check used to implement `includes`/`startsWith`. -/
def prefixOf : Str → Str → Bool
  | [], _ => true
  | _ :: _, [] => false
  | p :: ps, c :: cs => p = c && prefixOf ps cs

/-- `String.prototype.includes pat` (substring occurrence test). -/
def containsSub (pat : Str) : Str → Bool
  | [] => prefixOf pat []
  | c :: cs => prefixOf pat (c :: cs) || containsSub pat cs

/-- Split a string at every occurrence of a character
(`String.prototype.split` with a one-character separator; empty pieces
are kept). -/
def splitOnChar (sep : Char) : Str → List Str
  | [] => [[]]
  | c :: cs =>
    let r := splitOnChar sep cs
    if c = sep then [] :: r
    else match r with
      | [] => [[c]]
      | p :: ps => (c :: p) :: ps

/-- `content.split("\n")`. -/
def splitLines (content : Str) : List Str := splitOnChar '\n' content

/-- Emoji glyphs recognized by `normalizeLine`'s character class
`[🔍🚀📊🎯📝⏱️🧪]` (the stopwatch emoji contributes both U+23F1 and the
variation selector U+FE0F to the class). -/
def emojiGlyphs : List Char :=
  ['🔍', '🚀', '📊', '🎯', '📝', '⏱', Char.ofNat 0xFE0F, '🧪']

/-- `line.replace(/^[🔍🚀📊🎯📝⏱️🧪]\s+/, '')`: if the line starts with a
recognized glyph followed by at least one whitespace character, remove the
glyph and the (maximal, by greediness) whitespace run. -/
def stripEmojiPrefix : Str → Str
  | [] => []
  | c :: cs =>
    if c ∈ emojiGlyphs then
      match cs with
      | c₂ :: _ => if jsWs c₂ then cs.dropWhile jsWs else c :: cs
      | [] => [c]
    else c :: cs

/-- `normalizeLine` from `route.ts`: strip a leading emoji prefix, then trim. -/
def normalizeLine (line : Str) : Str := trim (stripEmojiPrefix line)

/-- Does a string start with a recognized glyph followed by whitespace
(i.e. would `stripEmojiPrefix` remove something)? -/
def startsWithEmojiWs : Str → Bool
  | c :: c₂ :: _ => c ∈ emojiGlyphs && jsWs c₂
  | _ => false

/-! ### Character classes and string utilities -/

/-- ASCII digit test (regex `\d`). -/
def isDigit (c : Char) : Bool := '0' ≤ c ∧ c ≤ '9'

/-- ASCII letter test. -/
def isAsciiLetter (c : Char) : Bool :=
  ('a' ≤ c ∧ c ≤ 'z') ∨ ('A' ≤ c ∧ c ≤ 'Z')

/-- ASCII alphanumeric test (regex class `[a-zA-Z0-9]`). -/
def isAlphaNum (c : Char) : Bool := isAsciiLetter c ∨ isDigit c

/-- Word character (regex `\w`). -/
def isWordChar (c : Char) : Bool := isAlphaNum c ∨ c = '_'

/-- ASCII-wise `toLowerCase`. -/
def toLowerStr (l : Str) : Str := l.map Char.toLower

/-- ASCII-wise `toUpperCase`. -/
def toUpperStr (l : Str) : Str := l.map Char.toUpper

/-- Case-insensitive character comparison (regex `i` flag, ASCII). -/
def charCI (a b : Char) : Bool := a.toLower = b.toLower

/-- Match a literal, returning the rest of the input on success. -/
def stripLit : Str → Str → Option Str
  | [], l => some l
  | _ :: _, [] => none
  | p :: ps, c :: cs => if p = c then stripLit ps cs else none

/-- Match a literal case-insensitively, returning the rest on success. -/
def stripLitCI : Str → Str → Option Str
  | [], l => some l
  | _ :: _, [] => none
  | p :: ps, c :: cs => if charCI p c then stripLitCI ps cs else none

/-- Regex `\s+` (greedy): require at least one whitespace character and
consume the maximal whitespace run.  (Used where the following token can
never begin with whitespace, so no backtracking can change the outcome.) -/
def munchWs1 : Str → Option Str
  | [] => none
  | c :: cs => if jsWs c then some (cs.dropWhile jsWs) else none

/-- Backtracking trials for a greedy `\s+` followed by a continuation:
`wRev` holds the consumed whitespace (most recent first).  Try the
continuation on the current remainder; on failure give one whitespace
character back, keeping at least one consumed (regex backtracking
order: longest munch first). -/
def wsTrials (f : Str → Option α) : Str → Str → Option α
  | wRev, rest =>
    match f rest with
    | some v => some v
    | none =>
      match wRev with
      | [] => none
      | [_] => none
      | c :: c₂ :: wRev₂ => wsTrials f (c₂ :: wRev₂) (c :: rest)

/-- Regex `\s+` followed by a continuation that may itself consume
whitespace (such as a lazy `(.+?)` group): greedy munch with give-back. -/
def wsPlusThen (f : Str → Option α) : Str → Option α
  | [] => none
  | c :: cs =>
    if jsWs c then
      wsTrials f ((c :: cs).takeWhile jsWs).reverse ((c :: cs).dropWhile jsWs)
    else none

/-- `parseInt(digits, 10)` on a digit string. -/
def parseIntNat (ds : Str) : Nat :=
  ds.foldl (fun a c => 10 * a + (c.toNat - '0'.toNat)) 0

/-- Regex `(\d+)` (greedy): capture a maximal nonempty digit run as a number. -/
def munchDigits (l : Str) : Option (Nat × Str) :=
  let ds := l.takeWhile isDigit
  if ds.isEmpty then none else some (parseIntNat ds, l.dropWhile isDigit)

/-- Regex `(\d+)` (greedy), keeping the captured digit text. -/
def munchDigitsStr (l : Str) : Option (Str × Str) :=
  let ds := l.takeWhile isDigit
  if ds.isEmpty then none else some (ds, l.dropWhile isDigit)

/-- Regex `\d\{n\}`: exactly `n` digits starting here. -/
def matchDigitsN (n : Nat) (l : Str) : Option (Str × Str) :=
  let ds := l.take n
  if ds.length = n ∧ ds.all isDigit then some (ds, l.drop n) else none

/-- Generic leftmost-match scan: try a match at every position, first
success wins (the semantics of an unanchored JavaScript regex search). -/
def scanFirst (mh : Str → Option α) : Str → Option α
  | [] => mh []
  | c :: cs =>
    match mh (c :: cs) with
    | some a => some a
    | none => scanFirst mh cs

/-- `s.split(pat)` for a nonempty literal `pat` (non-overlapping,
left-to-right; empty pieces kept).  The fuel argument is an upper bound on
the number of steps (the input length suffices, since every step consumes
at least one character). -/
def splitOnSubGo (pat : Str) : Nat → Str → List Str
  | _, [] => [[]]
  | 0, l => [l]
  | fuel + 1, c :: cs =>
    if prefixOf pat (c :: cs) then
      [] :: splitOnSubGo pat fuel ((c :: cs).drop pat.length)
    else
      match splitOnSubGo pat fuel cs with
      | [] => [[c]]
      | p :: ps => (c :: p) :: ps

/-- `s.split(pat)` for a literal pattern. -/
def splitOnSub (pat l : Str) : List Str := splitOnSubGo pat (l.length + 1) l

/-- `s.split(pat)[1]`: the piece between the first and second occurrence
of the pattern (or to the end of the string). -/
def afterFirstSub (pat l : Str) : Option Str := (splitOnSub pat l).get? 1

/-- `s.replace(pat, rep)` for a literal pattern: first occurrence only. -/
def replaceFirstSub (pat rep : Str) : Str → Str
  | [] => []
  | c :: cs =>
    if prefixOf pat (c :: cs) then rep ++ (c :: cs).drop pat.length
    else c :: replaceFirstSub pat rep cs

/-- `s.replace(/xy/g, z)` for a two-character pattern replaced by one
character (used by the diff unescaping): non-overlapping, left-to-right. -/
def replacePair (a b r : Char) : Str → Str
  | [] => []
  | [c] => [c]
  | c :: c₂ :: cs =>
    if c = a ∧ c₂ = b then r :: replacePair a b r cs
    else c :: replacePair a b r (c₂ :: cs)

/-! ### Outcome Extractor (`determineFinalSuccess`, `parsePassFailFromLogText`) -/

/-- Match the regex `Total\s+tests:\s*(\d+)\/(\d+)\s*passed` (flag `i`)
at the current position, returning the two captures and the rest of the
input.  The greedy quantifiers never need to backtrack here because each
is followed by a literal its class cannot match. -/
def matchTotalHere (l : Str) : Option (Nat × Nat × Str) :=
  (stripLitCI "total".data l).bind fun r₁ =>
  (munchWs1 r₁).bind fun r₂ =>
  (stripLitCI "tests:".data r₂).bind fun r₃ =>
  (munchDigits (r₃.dropWhile jsWs)).bind fun xr =>
  (stripLit "/".data xr.2).bind fun r₅ =>
  (munchDigits r₅).bind fun yr =>
  (stripLitCI "passed".data (yr.2.dropWhile jsWs)).map fun r₇ =>
  (xr.1, yr.1, r₇)

/-- All matches of the `Total tests:` regex, scanning left to right and
resuming after each match (`regex.exec` with the `g` flag).  Fuel is an
upper bound on the number of scan steps; the input length suffices since
every step consumes at least one character. -/
def findTotalAllGo : Nat → Str → List (Nat × Nat)
  | 0, _ => []
  | _ + 1, [] => []
  | fuel + 1, c :: cs =>
    match matchTotalHere (c :: cs) with
    | some (x, y, r) => (x, y) :: findTotalAllGo fuel r
    | none => findTotalAllGo fuel cs

/-- All `(X, Y)` captures of `Total tests: X/Y passed` in the content. -/
def findTotalAll (l : Str) : List (Nat × Nat) := findTotalAllGo l.length l

/-- Match the fallback regex `Passed\s*(\d+)\/(\d+)\s*tests` (flag `i`)
at the current position. -/
def matchPassedHere (l : Str) : Option (Nat × Nat × Str) :=
  (stripLitCI "passed".data l).bind fun r₁ =>
  (munchDigits (r₁.dropWhile jsWs)).bind fun xr =>
  (stripLit "/".data xr.2).bind fun r₃ =>
  (munchDigits r₃).bind fun yr =>
  (stripLitCI "tests".data (yr.2.dropWhile jsWs)).map fun r₅ =>
  (xr.1, yr.1, r₅)

/-- All `(X, Y)` captures of `Passed X/Y tests` in the content. -/
def findPassedAllGo : Nat → Str → List (Nat × Nat)
  | 0, _ => []
  | _ + 1, [] => []
  | fuel + 1, c :: cs =>
    match matchPassedHere (c :: cs) with
    | some (x, y, r) => (x, y) :: findPassedAllGo fuel r
    | none => findPassedAllGo fuel cs

/-- All captures of the fallback pattern in the content. -/
def findPassedAll (l : Str) : List (Nat × Nat) := findPassedAllGo l.length l

/-- The while-loops of `determineFinalSuccess` keep only the last match. -/
def lastMatch (ms : List (Nat × Nat)) : Option (Nat × Nat) :=
  ms.foldl (fun _ m => some m) none

/-- `determineFinalSuccess` from `route.ts`: last `Total tests: X/Y passed`
wins; success iff the counts agree and the denominator is positive; fall
back to `Passed X/Y tests`; default false. -/
def determineFinalSuccess (content : Str) : Bool :=
  match lastMatch (findTotalAll content) with
  | some (x, y) => if 0 < y then x == y else false
  | none =>
    match lastMatch (findPassedAll content) with
    | some (x, y) => if 0 < y then x == y else false
    | none => false

/-- `parsePassFailFromLogText` from `page.tsx`: the client-side mirror of
`determineFinalSuccess`, returning `none` when the text is empty or no
pattern occurs. -/
def parsePassFailFromLogText (text : Str) : Option Bool :=
  if text.isEmpty then none
  else
    match lastMatch (findTotalAll text) with
    | some (x, y) => some (if 0 < y then x == y else false)
    | none =>
      match lastMatch (findPassedAll text) with
      | some (x, y) => some (if 0 < y then x == y else false)
      | none => none

/-- The Outcome Extractor as the specification describes it: the *last*
occurrence wins (`getLast?`), success iff `X = Y` and `Y > 0`, with the
same rule applied to the fallback pattern, and `false` when neither
pattern occurs. -/
def outcomeSpec (content : Str) : Bool :=
  match (findTotalAll content).getLast? with
  | some (x, y) => x == y && decide (0 < y)
  | none =>
    match (findPassedAll content).getLast? with
    | some (x, y) => x == y && decide (0 < y)
    | none => false

/-! ### Timestamp Extractor and duration -/

/-- Regex `\d\{4\}-\d\{2\}-\d\{2\}` at the current position,
returning the matched text. -/
def matchDateHere (l : Str) : Option (Str × Str) :=
  (matchDigitsN 4 l).bind fun a =>
  (stripLit "-".data a.2).bind fun r₁ =>
  (matchDigitsN 2 r₁).bind fun b =>
  (stripLit "-".data b.2).bind fun r₂ =>
  (matchDigitsN 2 r₂).map fun c =>
  (a.1 ++ "-".data ++ b.1 ++ "-".data ++ c.1, c.2)

/-- Regex `\d\{2\}:\d\{2\}:\d\{2\}` at the current position. -/
def matchTimeHere (l : Str) : Option (Str × Str) :=
  (matchDigitsN 2 l).bind fun a =>
  (stripLit ":".data a.2).bind fun r₁ =>
  (matchDigitsN 2 r₁).bind fun b =>
  (stripLit ":".data b.2).bind fun r₂ =>
  (matchDigitsN 2 r₂).map fun c =>
  (a.1 ++ ":".data ++ b.1 ++ ":".data ++ c.1, c.2)

/-- Regex `\d\{4\}-\d\{2\}-\d\{2\}\s+\d\{2\}:\d\{2\}:\d\{2\}`:
date, a whitespace run, then a time; the match text includes the run. -/
def matchFullTsHere (l : Str) : Option (Str × Str) :=
  (matchDateHere l).bind fun d =>
  match d.2 with
  | [] => none
  | c :: cs =>
    if jsWs c then
      let ws := c :: cs.takeWhile jsWs
      (matchTimeHere (cs.dropWhile jsWs)).map fun t => (d.1 ++ ws ++ t.1, t.2)
    else none

/-- `extractTimestamp` from `route.ts`: first try the full date-time
pattern, then a bare time, else the sentinel `"N/A"`. -/
def extractTimestamp (line : Str) : Str :=
  match scanFirst matchFullTsHere line with
  | some (m, _) => m
  | none =>
    match scanFirst matchTimeHere line with
    | some (m, _) => m
    | none => "N/A".data

/-- Regex `Total\s+duration:\s*([^\n]+)` (flag `i`) at the current
position, returning the capture.  When everything after the colon is
whitespace, the greedy `\s*` backs off minimally, so the capture becomes
the final character of the run unless that character is a newline. -/
def matchDurationHere (l : Str) : Option Str :=
  (stripLitCI "total".data l).bind fun r₁ =>
  (munchWs1 r₁).bind fun r₂ =>
  (stripLitCI "duration:".data r₂).bind fun r₃ =>
  let m := r₃.dropWhile jsWs
  match m with
  | c :: cs => some (c :: cs.takeWhile (fun d => ¬ d = '\n'))
  | [] =>
    match r₃.reverse.find? (fun d => ¬ d = '\n') with
    | some c => some [c]
    | none => none

/-- `extractDuration` from `route.ts`. -/
def extractDuration (content : Str) : Option Str :=
  (scanFirst matchDurationHere content).map trim

/-! ### Test Result Extractor (`parseTestResults`) -/

/-- Lazy scan for the second capture of
`kw\s+(.+?)::(.+?):\s+END`: find the minimal nonempty dot-run followed by
`:`, a whitespace run and the terminator word; on failure extend the
capture (regex backtracking order). -/
def g2scanFull (endkw : Str) (accRev : Str) : Str → Option (Str × Str)
  | [] => none
  | c :: cs =>
    if accRev.isEmpty then
      if jsDot c then g2scanFull endkw (c :: accRev) cs else none
    else
      match
        (stripLit ":".data (c :: cs)).bind fun r =>
        (munchWs1 r).bind fun r₂ => stripLit endkw r₂
      with
      | some rest => some (accRev.reverse, rest)
      | none => if jsDot c then g2scanFull endkw (c :: accRev) cs else none

/-- Lazy scan for the first capture of `kw\s+(.+?)::(.+?):\s+END`:
at each position where `::` follows a nonempty dot-run, try the rest of
the pattern; if that fails, keep extending the capture. -/
def g1scanFull (endkw : Str) (accRev : Str) : Str → Option (Str × Str × Str)
  | [] => none
  | c :: cs =>
    if accRev.isEmpty then
      if jsDot c then g1scanFull endkw (c :: accRev) cs else none
    else
      match stripLit "::".data (c :: cs) with
      | some r =>
        match g2scanFull endkw [] r with
        | some (g2, rest) => some (accRev.reverse, g2, rest)
        | none => if jsDot c then g1scanFull endkw (c :: accRev) cs else none
      | none => if jsDot c then g1scanFull endkw (c :: accRev) cs else none

/-- Match `kw\s+(.+?)::(.+?):\s+END` at the current position
(`kw` is `pass` or `fail`, `END` is `PASSED` or `FAILED`).  The leading
`\s+` is greedy but gives characters back when the rest of the pattern
fails, so the first capture may itself start with whitespace. -/
def matchResLineHere (kw endkw : Str) (l : Str) : Option (Str × Str × Str) :=
  (stripLit kw l).bind fun r => wsPlusThen (g1scanFull endkw []) r

/-- Lazy scan for the second capture of the end-anchored
`kw\s+(.+?)::(.+?):\s*$`: the capture must be followed by `:` and
trailing whitespace running to the end of the string. -/
def g2scanEnd (accRev : Str) : Str → Option Str
  | [] => none
  | c :: cs =>
    if accRev.isEmpty then
      if jsDot c then g2scanEnd (c :: accRev) cs else none
    else
      match stripLit ":".data (c :: cs) with
      | some r =>
        if r.all jsWs then some accRev.reverse
        else if jsDot c then g2scanEnd (c :: accRev) cs else none
      | none => if jsDot c then g2scanEnd (c :: accRev) cs else none

/-- Lazy scan for the first capture of `kw\s+(.+?)::(.+?):\s*$`. -/
def g1scanEnd (accRev : Str) : Str → Option (Str × Str)
  | [] => none
  | c :: cs =>
    if accRev.isEmpty then
      if jsDot c then g1scanEnd (c :: accRev) cs else none
    else
      match stripLit "::".data (c :: cs) with
      | some r =>
        match g2scanEnd [] r with
        | some g2 => some (accRev.reverse, g2)
        | none => if jsDot c then g1scanEnd (c :: accRev) cs else none
      | none => if jsDot c then g1scanEnd (c :: accRev) cs else none

/-- Match the end-anchored `kw\s+(.+?)::(.+?):\s*$` at this position, with
the same `\s+` give-back backtracking as the full form. -/
def matchStartLineHere (kw : Str) (l : Str) : Option (Str × Str) :=
  (stripLit kw l).bind fun r => wsPlusThen (g1scanEnd []) r

/-- Match `^kw\s*$` on a whole line. -/
def matchBare (kw l : Str) : Bool :=
  match stripLit kw l with
  | some r => r.all jsWs
  | none => false

/-- The bounded multi-line lookahead of the standalone `pass`/`fail`
branches: collect path fragments over at most 3 following lines until a
terminator (`": PASSED"` inside a line, or a bare `PASSED` line); abort on
a bare `pass`/`fail` token.  Returns the collected path and the number of
lines consumed through the terminator. -/
def lookAcross (termFull termBare exclWord : Str) :
    Str → Nat → Nat → List Str → Option (Str × Nat)
  | _, _, _, [] => none
  | _, 0, _, _ => none
  | acc, fuel + 1, k, x :: xs =>
    let nl := trim x
    if nl = "pass".data ∨ nl = "fail".data then none
    else if containsSub termFull nl then
      some (acc ++ replaceFirstSub termFull [] nl, k)
    else if nl = termBare then some (acc, k)
    else if containsSub "::".data nl then
      lookAcross termFull termBare exclWord (acc ++ nl) fuel (k + 1) xs
    else if ¬ nl.isEmpty ∧ ¬ containsSub exclWord nl then
      lookAcross termFull termBare exclWord (acc ++ nl) fuel (k + 1) xs
    else lookAcross termFull termBare exclWord acc fuel (k + 1) xs

/-- Status of a recognized test line. -/
inductive TRStatus
  | pass
  | fail
deriving DecidableEq, Repr

/-- A test result extracted from the log. -/
structure TestResult where
  name : Str
  status : TRStatus
  fullName : Str
deriving DecidableEq, Repr

/-- Build a `TestResult` as the source does:
`fullName` is the path, `"::"`, and the test name. -/
def mkResult (st : TRStatus) (fp tn : Str) : TestResult :=
  ⟨tn, st, fp ++ "::".data ++ tn⟩

/-- `fullTestPath.split('::')` with `parts[0]` as the path and
`parts.slice(1).join('::')` as the test name. -/
def splitFirstColons (path : Str) : Option (Str × Str) :=
  match splitOnSub "::".data path with
  | p₀ :: p₁ :: rest => some (p₀, List.intercalate "::".data (p₁ :: rest))
  | _ => none

/-- The scanning loop of `parseTestResults`, over the trimmed lines.
The fuel argument bounds the number of outer loop steps; the number of
lines suffices, since every step consumes at least one line. -/
def processTestsGo : Nat → List Str → List TestResult
  | 0, _ => []
  | _ + 1, [] => []
  | fuel + 1, l₀ :: tail =>
    match scanFirst (matchResLineHere "pass".data "PASSED".data) (trim l₀) with
    | some (fp, tn, _) => mkResult .pass fp tn :: processTestsGo fuel tail
    | none =>
    match scanFirst (matchResLineHere "fail".data "FAILED".data) (trim l₀) with
    | some (fp, tn, _) => mkResult .fail fp tn :: processTestsGo fuel tail
    | none =>
    match tail with
    | [] => []
    | t₁ :: ts =>
      match scanFirst (matchStartLineHere "pass".data) (trim l₀) with
      | some (fp, tn) =>
        if trim t₁ = "PASSED".data then mkResult .pass fp tn :: processTestsGo fuel ts
        else processTestsGo fuel (t₁ :: ts)
      | none =>
      match scanFirst (matchStartLineHere "fail".data) (trim l₀) with
      | some (fp, tn) =>
        if trim t₁ = "FAILED".data then mkResult .fail fp tn :: processTestsGo fuel ts
        else processTestsGo fuel (t₁ :: ts)
      | none =>
      if matchBare "pass".data (trim l₀) then
        match lookAcross ": PASSED".data "PASSED".data "FAILED".data [] 3 1 (t₁ :: ts) with
        | some (path, k) =>
          if containsSub "::".data path then
            match splitFirstColons path with
            | some (fp, tn) => mkResult .pass fp tn :: processTestsGo fuel ((t₁ :: ts).drop k)
            | none => processTestsGo fuel (t₁ :: ts)
          else processTestsGo fuel (t₁ :: ts)
        | none => processTestsGo fuel (t₁ :: ts)
      else if matchBare "fail".data (trim l₀) then
        match lookAcross ": FAILED".data "FAILED".data "PASSED".data [] 3 1 (t₁ :: ts) with
        | some (path, k) =>
          if containsSub "::".data path then
            match splitFirstColons path with
            | some (fp, tn) => mkResult .fail fp tn :: processTestsGo fuel ((t₁ :: ts).drop k)
            | none => processTestsGo fuel (t₁ :: ts)
          else processTestsGo fuel (t₁ :: ts)
        | none => processTestsGo fuel (t₁ :: ts)
      else processTestsGo fuel (t₁ :: ts)

/-- `parseTestResults` from `route.ts`. -/
def parseTestResults (content : Str) : List TestResult :=
  processTestsGo (splitLines content).length (splitLines content)

/-! ### Lab Training Metrics Extractor (`parseLabTrainingMetrics`) -/

/-- The partially populated metrics record built by the extractor (a field
is `none` exactly when its key was never assigned). -/
structure LabMetrics where
  testsPassed : Option Bool := none
  agentSuccess : Option Bool := none
  codeChangesMade : Option Bool := none
  noSyntaxErrors : Option Bool := none
  conversationLength : Option Nat := none
  successfulEdits : Option Nat := none
  finalCodeFiles : Option Nat := none
deriving DecidableEq, Repr

/-- What a single metric line does, following the source's `if`-chain
(first matching label wins; the `-- Details --` check comes last). -/
inductive LabLine
  | tp (b : Bool)
  | ags (b : Bool)
  | ccm (b : Bool)
  | nse (b : Bool)
  | cl (n : Nat)
  | se (n : Nat)
  | fcf (n : Nat)
  | stop
  | skip
deriving DecidableEq, Repr

/-- Regex `LABEL:\s*(\d+)` for the integer metric lines. -/
def labNumHere (label : Str) (l : Str) : Option Nat :=
  (stripLit label l).bind fun r =>
  (munchDigits (r.dropWhile jsWs)).map (·.1)

/-- Classify a (trimmed) metric line by the source's `if`-chain. -/
def classifyLab (ml : Str) : LabLine :=
  if containsSub "Tests Passed:".data ml then .tp (containsSub "True".data ml)
  else if containsSub "Agent Success:".data ml then .ags (containsSub "True".data ml)
  else if containsSub "Code Changes Made:".data ml then .ccm (containsSub "True".data ml)
  else if containsSub "No Syntax Errors:".data ml then .nse (containsSub "True".data ml)
  else if containsSub "Conversation Length:".data ml then
    match scanFirst (labNumHere "Conversation Length:".data) ml with
    | some n => .cl n
    | none => .skip
  else if containsSub "Successful Edits:".data ml then
    match scanFirst (labNumHere "Successful Edits:".data) ml with
    | some n => .se n
    | none => .skip
  else if containsSub "Final Code Files:".data ml then
    match scanFirst (labNumHere "Final Code Files:".data) ml with
    | some n => .fcf n
    | none => .skip
  else if containsSub "-- Details --".data ml then .stop
  else .skip

/-- The inner metric loop: assign fields in order, breaking at
`-- Details --`. -/
def applyLab (m : LabMetrics) : List Str → LabMetrics
  | [] => m
  | l :: ls =>
    match classifyLab (trim l) with
    | .tp b => applyLab { m with testsPassed := some b } ls
    | .ags b => applyLab { m with agentSuccess := some b } ls
    | .ccm b => applyLab { m with codeChangesMade := some b } ls
    | .nse b => applyLab { m with noSyntaxErrors := some b } ls
    | .cl n => applyLab { m with conversationLength := some n } ls
    | .se n => applyLab { m with successfulEdits := some n } ls
    | .fcf n => applyLab { m with finalCodeFiles := some n } ls
    | .stop => m
    | .skip => applyLab m ls

/-- Find the first `-- Lab Training Metrics --` line; scan the following
window of `min(i + 20, length) - (i + 1) = 19` lines.  Return `none` when
no field was assigned (`Object.keys(metrics).length == 0`). -/
def labGo : List Str → Option LabMetrics
  | [] => none
  | l :: ls =>
    if containsSub "-- Lab Training Metrics --".data (trim l) then
      let m := applyLab {} (ls.take 19)
      if m = ({} : LabMetrics) then none else some m
    else labGo ls

/-- `parseLabTrainingMetrics` from `route.ts`. -/
def parseLabTrainingMetrics (content : Str) : Option LabMetrics :=
  labGo (splitLines content)

/-- Last assignment of each field over a window, declaratively. -/
def lastLab (w : List Str) : LabMetrics :=
  let cs := (w.takeWhile fun l => ¬ classifyLab (trim l) = .stop).map
    fun l => classifyLab (trim l)
  { testsPassed := (cs.filterMap fun a => match a with | .tp b => some b | _ => none).getLast?
    agentSuccess := (cs.filterMap fun a => match a with | .ags b => some b | _ => none).getLast?
    codeChangesMade := (cs.filterMap fun a => match a with | .ccm b => some b | _ => none).getLast?
    noSyntaxErrors := (cs.filterMap fun a => match a with | .nse b => some b | _ => none).getLast?
    conversationLength := (cs.filterMap fun a => match a with | .cl n => some n | _ => none).getLast?
    successfulEdits := (cs.filterMap fun a => match a with | .se n => some n | _ => none).getLast?
    finalCodeFiles := (cs.filterMap fun a => match a with | .fcf n => some n | _ => none).getLast? }

/-- The Lab Training Metrics Extractor as the specification describes it,
parameterized by the size of the scanned window after the marker line:
populate exactly the fields whose labels occur (with a parseable value,
last occurrence winning) in the window, truncated at `-- Details --`;
absent when the marker never occurs or nothing was assigned. -/
def labSpec (window : Nat) : List Str → Option LabMetrics
  | [] => none
  | l :: ls =>
    if containsSub "-- Lab Training Metrics --".data (trim l) then
      let m := lastLab (ls.take window)
      if m = ({} : LabMetrics) then none else some m
    else labSpec window ls

/-- The spec-described extractor on whole content. -/
def labSpecContent (window : Nat) (content : Str) : Option LabMetrics :=
  labSpec window (splitLines content)

/-! ### Diff Extractor (`extractDiffs`) -/

/-- The value part of the regex `'([^']*(?:\\'[^']*)*)'` with its closing
quote.  The greedy `[^']*` consumes every non-quote character, backslashes
included, and only backtracks on overall failure, so the `\\'` alternation
can never start a repetition: the capture always ends at the first quote,
and the match succeeds exactly when a closing quote exists. -/
def diffValue (l : Str) : Option (Str × Str) :=
  match l.dropWhile (fun c => ¬ c = '\'') with
  | _ :: rest => some (l.takeWhile (fun c => ¬ c = '\''), rest)
  | [] => none

/-- Match `'KEY':\s*'<value>'` at the current position, returning the raw
(still escaped) captured value. -/
def matchDiffKeyHere (key : Str) (l : Str) : Option (Str × Str) :=
  (stripLit ("'".data ++ key ++ "':".data) l).bind fun r =>
  (stripLit "'".data (r.dropWhile jsWs)).bind fun r₂ =>
  diffValue r₂

/-- The raw capture of the first `'KEY': '...'` occurrence. -/
def findDiffRaw (key : Str) (content : Str) : Option Str :=
  (scanFirst (matchDiffKeyHere key) content).map (·.1)

/-- The unescaping chain of `extractDiffs`:
`\\'` to `'`, then `\\n` to newline, then `\\t` to tab. -/
def jsUnescapeDiff (v : Str) : Str :=
  replacePair '\\' 't' '\t' (replacePair '\\' 'n' '\n' (replacePair '\\' '\'' '\'' v))

/-- `d.split("\n")`. -/
def splitNl (d : Str) : List Str := splitOnChar '\n' d

/-- Match `--- a\/(.*?)\n\+\+\+ b\/` at the current position: capture the
minimal dot-run after `--- a/` that is followed by a newline and `+++ b/`. -/
def fileCapGo (accRev : Str) : Str → Option (Str × Str)
  | [] => none
  | c :: cs =>
    if prefixOf "\n+++ b/".data (c :: cs) then
      some (accRev.reverse, (c :: cs).drop 7)
    else if jsDot c then fileCapGo (c :: accRev) cs
    else none

/-- Match the changed-file pattern at the current position. -/
def matchFileHere (l : Str) : Option (Str × Str) :=
  (stripLit "--- a/".data l).bind fun r => fileCapGo [] r

/-- All captures of the changed-file pattern (`matchAll`). -/
def findFilesGo : Nat → Str → List Str
  | 0, _ => []
  | _ + 1, [] => []
  | fuel + 1, c :: cs =>
    match matchFileHere (c :: cs) with
    | some (f, r) => f :: findFilesGo fuel r
    | none => findFilesGo fuel cs

/-- All changed-file captures in a diff text. -/
def findFilesAll (d : Str) : List Str := findFilesGo d.length d

/-- `Array.from(new Set(xs))`: deduplicate preserving first occurrence. -/
def dedupe (seen : List Str) : List Str → List Str
  | [] => []
  | x :: xs => if x ∈ seen then dedupe seen xs else x :: dedupe (x :: seen) xs

/-- The `diffStats` record of `extractDiffs`. -/
structure DiffStats where
  agentFilesChanged : Nat
  goldenFilesChanged : Nat
  agentLines : Nat
  goldenLines : Nat
deriving DecidableEq, Repr

/-- The bundle returned by `extractDiffs`. -/
structure DiffBundle where
  agentDiff : Option Str
  goldenDiff : Option Str
  filesChanged : List Str
  diffStats : DiffStats
deriving DecidableEq, Repr

/-- `extractDiffs` from `route.ts`.  JavaScript string truthiness makes an
*empty* diff text behave like an absent one in the `agentDiff ? ... : 0`
expressions, so an empty diff contributes `0` lines and no files.  The
`try`/`catch` wrapper of the source cannot fire in this pure model. -/
def extractDiffs (content : Str) : DiffBundle :=
  let agentDiff := (findDiffRaw "agent_diff".data content).map jsUnescapeDiff
  let goldenDiff := (findDiffRaw "golden_diff".data content).map jsUnescapeDiff
  let filesChanged :=
    match agentDiff with
    | some d => if d.isEmpty then [] else dedupe [] (findFilesAll d)
    | none => []
  { agentDiff := agentDiff
    goldenDiff := goldenDiff
    filesChanged := filesChanged
    diffStats :=
      { agentFilesChanged := filesChanged.length
        goldenFilesChanged :=
          match goldenDiff with
          | some d => if d.isEmpty then 0 else 1
          | none => 0
        agentLines :=
          match agentDiff with
          | some d => if d.isEmpty then 0 else (splitNl d).length
          | none => 0
        goldenLines :=
          match goldenDiff with
          | some d => if d.isEmpty then 0 else (splitNl d).length
          | none => 0 } }

/-! ### Step Reconstructor state machine (`parseLogFile`) -/

/-- The open bag of tool details attached to a step (the known key set;
the JSON-or-raw payloads are retained as their raw captured text, which
matches the source's control flow — both branches of the opportunistic
`JSON.parse` keep the payload). -/
structure ToolDetails where
  editTarget : Option Str := none
  editInstructions : Option Str := none
  lineEditsCount : Option Str := none
  edits : List Str := []
  syntaxValidation : Option Str := none
  syntaxError : Option Str := none
  syntaxErrorDetail : Option Str := none
  changesApplied : Option Str := none
  changesNotApplied : Option Str := none
  attemptedChanges : Option Str := none
  bytesWritten : Option Str := none
  filePath : Option Str := none
deriving DecidableEq, Repr

/-- One step of a trajectory (`success = none` models JS `null`). -/
structure TrajectoryStep where
  type : Str
  content : Str
  iteration : Nat
  success : Option Bool
  timestamp : Option Str
  toolCall : Option Str
  error : Option Str
  toolDetails : ToolDetails
  toolResult : List Str
deriving DecidableEq, Repr

/-- The mutable state of the `parseLogFile` loop.  `curIdx` is the index
(into `steps`) of the step the `currentStep` reference points at. -/
structure PState where
  taskName : Str
  modelName : Str
  totalIterations : Nat
  toolCalls : Nat
  errors : Nat
  steps : List TrajectoryStep
  currentIteration : Option Nat
  curIdx : Option Nat
  collecting : Bool
  buffer : List Str
deriving Repr

/-- The step the `currentStep` reference points at, if any. -/
def getCur (s : PState) : Option TrajectoryStep :=
  s.curIdx.bind fun k => s.steps.get? k

/-- Mutate the list element the current-step reference points at. -/
def updSteps (g : TrajectoryStep → TrajectoryStep) (k : Nat)
    (l : List TrajectoryStep) : List TrajectoryStep :=
  match l.get? k with
  | some st => l.set k (g st)
  | none => l

/-- Mutate the current step in place (a no-op without a current step). -/
def setCur (s : PState) (g : TrajectoryStep → TrajectoryStep) : PState :=
  match s.curIdx with
  | some k => { s with steps := updSteps g k s.steps }
  | none => s

/-- Regex `Iteration (\d+)` at this position. -/
def matchIterHere (l : Str) : Option Nat :=
  (stripLit "Iteration ".data l).bind fun r => (munchDigits r).map (·.1)

/-- Regex `Tool call \d+: (\w+)` at this position. -/
def matchToolHere (l : Str) : Option Str :=
  (stripLit "Tool call ".data l).bind fun r =>
  (munchDigits r).bind fun dr =>
  (stripLit ": ".data dr.2).bind fun r₂ =>
  (if (r₂.takeWhile isWordChar).isEmpty then none
   else some (r₂.takeWhile isWordChar))

/-- Regex `Tool 0 result success: (\w+)` at this position. -/
def matchT0Here (l : Str) : Option Str :=
  (stripLit "Tool 0 result success: ".data l).bind fun r =>
  (if (r.takeWhile isWordChar).isEmpty then none
   else some (r.takeWhile isWordChar))

/-- Regex `Writing (\d+) characters to (.+)` at this position. -/
def matchWritingHere (l : Str) : Option (Str × Str) :=
  (stripLit "Writing ".data l).bind fun r =>
  (munchDigitsStr r).bind fun dr =>
  (stripLit " characters to ".data dr.2).bind fun r₂ =>
  (if (r₂.takeWhile jsDot).isEmpty then none
   else some (dr.1, r₂.takeWhile jsDot))

/-- Regex `HARNESS: Edit \d+:` at this position (rest after the match). -/
def editSplitHere (l : Str) : Option Str :=
  (stripLit "HARNESS: Edit ".data l).bind fun r =>
  (munchDigits r).bind fun dr =>
  stripLit ":".data dr.2

/-- The piece of `line.split(/HARNESS: Edit \d+:/)[1]`: everything after
the first match up to the next match (or the end). -/
def takeUntilEdit : Str → Str
  | [] => []
  | c :: cs =>
    if (editSplitHere (c :: cs)).isSome then []
    else c :: takeUntilEdit cs

/-- JS falsiness of an optional string (`undefined`, `null` or `""`). -/
def jsFalsyStr (o : Option Str) : Bool :=
  match o with
  | none => true
  | some v => v.isEmpty

/-- Rule 1: a `Starting benchmark run` line pushes a start step. -/
def rule1 (s : PState) (rawLine : Str) : PState :=
  let ts :=
    match scanFirst matchDateHere rawLine with
    | some (m, _) => m
    | none => extractTimestamp rawLine
  { s with steps := s.steps ++
      [{ type := "start".data
         content := "Starting benchmark run".data
         iteration := 0
         success := some true
         timestamp := some ts
         toolCall := none
         error := none
         toolDetails := {}
         toolResult := [] }] }

/-- Rule 2: a `Dataset:`/`Agent:`/`Model:` line resets the names from its
comma-separated parts. -/
def rule2 (s : PState) (line : Str) : PState :=
  (splitOnChar ',' line).foldl
    (fun acc part =>
      if containsSub "Model:".data part then
        { acc with modelName := trim ((afterFirstSub "Model:".data part).getD []) }
      else if containsSub "Task:".data part then
        { acc with taskName := trim ((afterFirstSub "Task:".data part).getD []) }
      else acc)
    s

/-- Rule 3: an iteration header updates the current iteration and the
running maximum. -/
def rule3 (s : PState) (line : Str) : PState :=
  match scanFirst matchIterHere line with
  | some n =>
    { s with currentIteration := some n
             totalIterations := max s.totalIterations n }
  | none => s

/-- Rule 4: a tool-call line starts a new step. -/
def rule4 (s : PState) (line rawLine : Str) : PState :=
  match scanFirst matchToolHere line with
  | some name =>
    { s with
      toolCalls := s.toolCalls + 1
      steps := s.steps ++
        [{ type := "iteration".data
           iteration := s.currentIteration.getD 0
           toolCall := some name
           success := none
           content := "Executing ".data ++ name
           error := none
           toolDetails := {}
           toolResult := []
           timestamp := some (extractTimestamp rawLine) }]
      curIdx := some s.steps.length
      collecting := false
      buffer := [] }
  | none => s

/-- The `HARNESS:` detail rules that write a single optional field when
the captured text is truthy. -/
def ruleDetailField (s : PState) (v : Str)
    (g : ToolDetails → Str → ToolDetails) : PState :=
  if v.isEmpty then s
  else setCur s fun st => { st with toolDetails := g st.toolDetails v }

/-- Rule 6: a `Tool 0 result success:` line sets the step's success flag,
counts an error on failure, and enters the collecting-result state. -/
def rule6 (s : PState) (line : Str) : PState :=
  match scanFirst matchT0Here line with
  | some w =>
    let isSuccess := toLowerStr w == "true".data
    let s₁ := setCur s fun st => { st with success := some isSuccess }
    let s₂ := if isSuccess then s₁ else { s₁ with errors := s₁.errors + 1 }
    { s₂ with collecting := true, buffer := [] }
  | none => s

/-- The collecting-result rule: append the line to the buffer and snapshot
it into the current step. -/
def ruleCollect (s : PState) (line : Str) : PState :=
  let buf := s.buffer ++ [line]
  { setCur s (fun st => { st with toolResult := buf }) with buffer := buf }

/-- The fallback ERROR rule: record the line as the step's error (once)
and count it. -/
def rule8 (s : PState) (line : Str) : PState :=
  match getCur s with
  | some st =>
    if jsFalsyStr st.error then
      { setCur s (fun st' => { st' with error := some line }) with
        errors := s.errors + 1 }
    else s
  | none => s

/-- The `HARNESS: Writing N characters to PATH` rule. -/
def ruleWriting (s : PState) (line : Str) : PState :=
  match scanFirst matchWritingHere line with
  | some (bytes, path) =>
    setCur s fun st =>
      { st with toolDetails :=
        { st.toolDetails with bytesWritten := some bytes, filePath := some path } }
  | none => s

/-- One pass of the `parseLogFile` loop body over a raw line: trim, skip
empty lines, then the strict top-to-bottom `else if` cascade of the
source over the normalized line (the collecting-result branch precedes
the success branch, as in the code).  The source binds
`line = normalizeLine(rawLine)` once; it is inlined here. -/
def processLine (s : PState) (raw : Str) : PState :=
  if (trim raw).isEmpty then s
  else
    if containsSub "Starting benchmark run".data (normalizeLine (trim raw)) then
      rule1 s (trim raw)
    else if containsSub "Dataset:".data (normalizeLine (trim raw))
        && containsSub "Agent:".data (normalizeLine (trim raw))
        && containsSub "Model:".data (normalizeLine (trim raw)) then
      rule2 s (normalizeLine (trim raw))
    else if containsSub "HARNESS: Iteration".data (normalizeLine (trim raw))
        && containsSub "making LLM call".data (normalizeLine (trim raw)) then
      rule3 s (normalizeLine (trim raw))
    else if containsSub "HARNESS: Tool call".data (normalizeLine (trim raw))
        && s.currentIteration.isSome then
      rule4 s (normalizeLine (trim raw)) (trim raw)
    else if (getCur s).isSome
        && containsSub "HARNESS: Edit target:".data (normalizeLine (trim raw)) then
      ruleDetailField s
        (trim ((afterFirstSub "HARNESS: Edit target:".data (normalizeLine (trim raw))).getD []))
        fun td v => { td with editTarget := some v }
    else if (getCur s).isSome
        && containsSub "HARNESS: Edit instructions:".data (normalizeLine (trim raw)) then
      ruleDetailField s
        (trim ((afterFirstSub "HARNESS: Edit instructions:".data (normalizeLine (trim raw))).getD []))
        fun td v => { td with editInstructions := some v }
    else if (getCur s).isSome
        && containsSub "HARNESS: Line edits count:".data (normalizeLine (trim raw)) then
      ruleDetailField s
        (trim ((afterFirstSub "HARNESS: Line edits count:".data (normalizeLine (trim raw))).getD []))
        fun td v => { td with lineEditsCount := some v }
    else if (getCur s).isSome
        && (scanFirst editSplitHere (normalizeLine (trim raw))).isSome then
      ruleDetailField s
        (trim (((scanFirst editSplitHere (normalizeLine (trim raw))).map takeUntilEdit).getD []))
        fun td v => { td with edits := td.edits ++ [v] }
    else if (getCur s).isSome
        && containsSub "HARNESS: Python syntax validation passed".data (normalizeLine (trim raw)) then
      setCur s fun st =>
        { st with toolDetails :=
          { st.toolDetails with syntaxValidation := some "passed".data } }
    else if (getCur s).isSome
        && containsSub "HARNESS: Python syntax error".data (normalizeLine (trim raw)) then
      setCur s fun st =>
        { st with toolDetails :=
          { st.toolDetails with
            syntaxValidation := some "failed".data
            syntaxError := some
              (if jsFalsyStr ((afterFirstSub "HARNESS: Python syntax error in".data
                    (normalizeLine (trim raw))).map trim)
               then "Syntax error detected".data
               else ((afterFirstSub "HARNESS: Python syntax error in".data
                    (normalizeLine (trim raw))).map trim).getD []) } }
    else if (getCur s).isSome
        && containsSub "HARNESS: SYNTAX ERROR at line".data (normalizeLine (trim raw)) then
      ruleDetailField s
        (trim ((afterFirstSub "HARNESS: SYNTAX ERROR at line".data (normalizeLine (trim raw))).getD []))
        fun td v => { td with syntaxErrorDetail := some v }
    else if (getCur s).isSome
        && containsSub "HARNESS: Changes applied:".data (normalizeLine (trim raw)) then
      ruleDetailField s
        (trim ((afterFirstSub "HARNESS: Changes applied:".data (normalizeLine (trim raw))).getD []))
        fun td v => { td with changesApplied := some v }
    else if (getCur s).isSome
        && containsSub "HARNESS: Changes that would have been applied:".data (normalizeLine (trim raw)) then
      ruleDetailField s
        (trim ((afterFirstSub "HARNESS: Changes that would have been applied:".data
          (normalizeLine (trim raw))).getD []))
        fun td v => { td with changesNotApplied := some v }
    else if (getCur s).isSome
        && containsSub "HARNESS: Attempted changes:".data (normalizeLine (trim raw)) then
      ruleDetailField s
        (trim ((afterFirstSub "HARNESS: Attempted changes:".data (normalizeLine (trim raw))).getD []))
        fun td v => { td with attemptedChanges := some v }
    else if (getCur s).isSome
        && containsSub "HARNESS: Writing".data (normalizeLine (trim raw))
        && containsSub "characters to".data (normalizeLine (trim raw)) then
      ruleWriting s (normalizeLine (trim raw))
    else if s.collecting && (getCur s).isSome
        && ¬ (normalizeLine (trim raw)).isEmpty then
      ruleCollect s (normalizeLine (trim raw))
    else if containsSub "Tool 0 result success:".data (normalizeLine (trim raw))
        && (getCur s).isSome then
      rule6 s (normalizeLine (trim raw))
    else if containsSub "ERROR".data (toUpperStr (normalizeLine (trim raw)))
        && (getCur s).isSome then
      rule8 s (normalizeLine (trim raw))
    else s

/-- Model-name detection from an old-format filename. -/
def detectModelOld (f : Str) : Str :=
  if containsSub "gpt-5".data f then "gpt-5".data
  else if containsSub "gpt-4".data f then "gpt-4".data
  else if containsSub "claude".data f then
    (if containsSub "claude-3-5-sonnet".data f then "claude-3-5-sonnet".data
     else if containsSub "claude-sonnet-4".data f then "claude-sonnet-4-5-20250929".data
     else "claude-3-5-sonnet".data)
  else if containsSub "gemini".data f then
    (if containsSub "gemini-2.5-flash-preview-09-2025".data f then
       "gemini-2.5-flash-preview".data
     else if containsSub "gemini-2.5-pro".data f then "gemini-2.5-pro".data
     else "gemini-2.5-flash".data)
  else "unknown".data

/-- The filename-derived `(modelName, taskName)` pair of `parseLogFile`. -/
def filenameMeta (filename : Str) : Str × Str :=
  let parts := splitOnChar '_' filename
  if 2 ≤ parts.length then
    if parts.length = 2 then
      (parts.getD 0 [], replaceFirstSub ".log".data [] (parts.getD 1 []))
    else
      (detectModelOld filename,
       replaceFirstSub ".log".data [] (parts.getLast?.getD []))
  else ("unknown".data, "unknown".data)

/-- The initial loop state of `parseLogFile`. -/
def initState (filename : Str) : PState :=
  { taskName := (filenameMeta filename).2
    modelName := (filenameMeta filename).1
    totalIterations := 0
    toolCalls := 0
    errors := 0
    steps := []
    currentIteration := none
    curIdx := none
    collecting := false
    buffer := [] }

/-- The trajectory record assembled by `parseLogFile`. -/
structure Trajectory where
  filename : Str
  taskName : Str
  modelName : Str
  totalIterations : Nat
  toolCalls : Nat
  errors : Nat
  testsPassed : Nat
  totalTests : Nat
  finalSuccess : Bool
  duration : Option Str
  steps : List TrajectoryStep
  finalDiffs : DiffBundle
  testResults : List TestResult
  labTrainingMetrics : Option LabMetrics
deriving Repr

/-- `parseLogFile` from `route.ts`: run the line loop, then the
independent whole-content extractors, and assemble the record. -/
def parseLogFile (filename content : Str) : Trajectory :=
  let sf := (splitLines content).foldl processLine (initState filename)
  let trs := parseTestResults content
  { filename := filename
    taskName := sf.taskName
    modelName := sf.modelName
    totalIterations := sf.totalIterations
    toolCalls := sf.toolCalls
    errors := sf.errors
    testsPassed := (trs.filter fun t => t.status = .pass).length
    totalTests := trs.length
    finalSuccess := determineFinalSuccess content
    duration := extractDuration content
    steps := sf.steps
    finalDiffs := extractDiffs content
    testResults := trs
    labTrainingMetrics := parseLabTrainingMetrics content }

/-! ### Filename resolvers (`page.tsx`) -/

/-- Separator characters of the fallback patterns (`[-_]`). -/
def isSepChar (c : Char) : Bool := c = '-' ∨ c = '_'

/-- `filename.indexOf(pat)` followed by `substring(idx + pat.length)`:
the remainder after the first occurrence, if any. -/
def afterOccur (pat : Str) : Str → Option Str
  | [] => if prefixOf pat [] then some [] else none
  | c :: cs =>
    if prefixOf pat (c :: cs) then some ((c :: cs).drop pat.length)
    else afterOccur pat cs

/-- The known-model list of `parseTrajectoryFilename` (pattern, display). -/
def knownModelsA : List (Str × Str) :=
  [("claude-sonnet-4-5-20250929".data, "Claude Sonnet 4.5".data),
   ("gemini_gemini-2.5-pro".data, "Gemini 2.5 Pro".data),
   ("gpt-5".data, "GPT-5".data)]

/-- The known-model list of `getTaskIdFromFilename` (same patterns). -/
def knownModelsB : List Str :=
  ["claude-sonnet-4-5-20250929".data,
   "gemini_gemini-2.5-pro".data,
   "gpt-5".data]

/-- The known-model loop of `parseTrajectoryFilename`: first pattern that
occurs wins; returns the display name and the remainder. -/
def findKnownA : List (Str × Str) → Str → Option (Str × Str)
  | [], _ => none
  | (p, d) :: rest, f =>
    match afterOccur p f with
    | some r => some (d, r)
    | none => findKnownA rest f

/-- The known-model loop of `getTaskIdFromFilename`. -/
def findKnownB : List Str → Str → Option Str
  | [], _ => none
  | p :: rest, f =>
    match afterOccur p f with
    | some r => some r
    | none => findKnownB rest f

/-- Tail check of fallback pattern 1 after the separator:
`(.+?)\.(log|txt)$`, i.e. the tail ends (case-insensitively) in `.log` or
`.txt` with at least one character before the dot. -/
def extTail (t : Str) : Bool :=
  5 ≤ t.length ∧
  (toLowerStr (t.drop (t.length - 4)) = ".log".data ∨
   toLowerStr (t.drop (t.length - 4)) = ".txt".data)

/-- Tail check of fallback pattern 2 after the separator: `(.+)$`. -/
def nonEmptyTail (t : Str) : Bool := ¬ t.isEmpty

/-- The shared lazy scan of the anchored fallback patterns
`^(.+?)[-_]<tail>`: a minimal nonempty prefix before a separator whose
tail completes the pattern; on tail failure the prefix keeps extending
over the separator (regex backtracking order). -/
def scanFB (check : Str → Bool) (accRev : Str) : Str → Option (Str × Str)
  | [] => none
  | c :: rest =>
    if isSepChar c ∧ ¬ accRev.isEmpty ∧ check rest then
      some (accRev.reverse, rest)
    else scanFB check (c :: accRev) rest

/-- Fallback pattern 1, `/^(.+?)[-_](.+?)\.(log|txt)$/i`: the second
capture excludes the four-character extension. -/
def fb1 (f : Str) : Option (Str × Str) :=
  (scanFB extTail [] f).map fun ar => (ar.1, ar.2.take (ar.2.length - 4))

/-- Fallback pattern 2, `/^(.+?)[-_](.+)$/i`. -/
def fb2 (f : Str) : Option (Str × Str) :=
  scanFB nonEmptyTail [] f

/-- Fallback pattern 3, `/^([^-_]+)[-_](.+)$/`: the first capture is the
maximal separator-free prefix, which cannot backtrack. -/
def fb3 (f : Str) : Option (Str × Str) :=
  let a := f.takeWhile fun c => ¬ isSepChar c
  match f.dropWhile fun c => ¬ isSepChar c with
  | _ :: t => if ¬ a.isEmpty ∧ ¬ t.isEmpty then some (a, t) else none
  | [] => none

/-- The identifier-shape test
`/^[a-zA-Z]([a-zA-Z0-9._-]*[a-zA-Z0-9])?$/`. -/
def identShape (m : Str) : Bool :=
  match m with
  | [] => false
  | c :: rest =>
    isAsciiLetter c &&
    (match rest.reverse with
     | [] => true
     | lastc :: midRev =>
       isAlphaNum lastc && midRev.all fun d => isAlphaNum d ∨ d = '.' ∨ d = '_' ∨ d = '-')

/-- The fallback loop of `parseTrajectoryFilename`: first pattern that
matches *and* whose model segment passes the identifier test. -/
def fbChainA (cands : List (Option (Str × Str))) : Option (Str × Str) :=
  match cands with
  | [] => none
  | some (a, b) :: rest =>
    if identShape a then some (a, b) else fbChainA rest
  | none :: rest => fbChainA rest

/-- The fallback loop of `getTaskIdFromFilename`: first pattern that
matches with a truthy second capture. -/
def fbChainB (cands : List (Option (Str × Str))) : Option (Str × Str) :=
  match cands with
  | [] => none
  | some (a, b) :: rest =>
    if ¬ b.isEmpty then some (a, b) else fbChainB rest
  | none :: rest => fbChainB rest

/-- `taskRaw.replace(/^[-_.]+/, '')`. -/
def stripLeadSeps (t : Str) : Str :=
  t.dropWhile fun c => c = '-' ∨ c = '_' ∨ c = '.'

/-- `t.replace(/\.(log|txt)$/i, '')`: drop a trailing extension. -/
def stripExtSuffix (t : Str) : Str :=
  if 4 ≤ t.length ∧
     (toLowerStr (t.drop (t.length - 4)) = ".log".data ∨
      toLowerStr (t.drop (t.length - 4)) = ".txt".data)
  then t.take (t.length - 4) else t

/-- The shared cleanup of a raw task fragment. -/
def cleanTask (t : Str) : Str := stripExtSuffix (stripLeadSeps t)

/-- `t.replace(/[_-]+/g, ' ')`: separator runs become one space. -/
def collapseSeps : Str → Str
  | [] => []
  | [c] => if isSepChar c then [' '] else [c]
  | c :: c₂ :: cs =>
    if isSepChar c then
      (if isSepChar c₂ then collapseSeps (c₂ :: cs)
       else ' ' :: collapseSeps (c₂ :: cs))
    else c :: collapseSeps (c₂ :: cs)

/-- `word.charAt(0).toUpperCase() + word.slice(1)`. -/
def capWord : Str → Str
  | [] => []
  | c :: cs => c.toUpper :: cs

/-- `word.charAt(0).toUpperCase() + word.slice(1).toLowerCase()`. -/
def capWordLower : Str → Str
  | [] => []
  | c :: cs => c.toUpper :: toLowerStr cs

/-- The title-casing chain shared (textually identical) between
`parseTrajectoryFilename`'s task formatting and `formatTaskIdToTitle`:
separators to spaces, trim, split on spaces, drop empties, capitalize. -/
def titleCaseWords (t : Str) : Str :=
  List.intercalate " ".data
    (((splitOnChar ' ' (trim (collapseSeps t))).filter fun w => ¬ w.isEmpty).map capWord)

/-- `formatTaskIdToTitle` from `page.tsx`. -/
def formatTaskIdToTitle (taskId : Str) : Str := titleCaseWords taskId

/-- The model display formatting of `parseTrajectoryFilename`'s fallback:
underscores then dashes to spaces, split on spaces (no empty filter),
capitalize with lowercased tails. -/
def fmtModelDisplay (m : Str) : Str :=
  List.intercalate " ".data
    ((splitOnChar ' ' (m.map fun c => if isSepChar c then ' ' else c)).map capWordLower)

/-- The result of `parseTrajectoryFilename`. -/
structure ModelTask where
  model : Str
  task : Str
deriving DecidableEq, Repr

/-- `parseTrajectoryFilename` from `page.tsx`. -/
def parseTrajectoryFilename (f : Str) : ModelTask :=
  let mt : Str × Str :=
    match findKnownA knownModelsA f with
    | some (d, r) => (d, r)
    | none =>
      match fbChainA [fb1 f, fb2 f, fb3 f] with
      | some (m1, m2) => (fmtModelDisplay m1, if m2.isEmpty then f else m2)
      | none => ("Unknown".data, f)
  let t₁ := cleanTask mt.2
  let t₂ := if t₁.isEmpty then stripExtSuffix f else t₁
  ⟨mt.1, titleCaseWords t₂⟩

/-- `getTaskIdFromFilename` from `page.tsx`. -/
def getTaskIdFromFilename (f : Str) : Str :=
  let taskRaw :=
    match findKnownB knownModelsB f with
    | some r => r
    | none =>
      match fbChainB [fb1 f, fb2 f, fb3 f] with
      | some (_, m2) => m2
      | none => f
  let t₁ := cleanTask taskRaw
  if t₁.isEmpty then stripExtSuffix f else t₁

/-! ### Predicates used by the statements -/

/-- Maximum iteration index over a step sequence (0 when empty). -/
def maxIter (l : List TrajectoryStep) : Nat :=
  l.foldr (fun st m => max st.iteration m) 0

/-- A raw line that triggers none of the step-reconstructor rules that can
fire from the initial state (no current step, no current iteration, not
collecting). -/
def inertLine (raw : Str) : Bool :=
  let line := normalizeLine (trim raw)
  !(containsSub "Starting benchmark run".data line) &&
  !(containsSub "Dataset:".data line && containsSub "Agent:".data line &&
    containsSub "Model:".data line) &&
  !(containsSub "HARNESS: Iteration".data line &&
    containsSub "making LLM call".data line)

/-- A raw line on which none of the test-result patterns fire. -/
def testInertLine (raw : Str) : Bool :=
  let line := trim raw
  (scanFirst (matchResLineHere "pass".data "PASSED".data) line).isNone &&
  (scanFirst (matchResLineHere "fail".data "FAILED".data) line).isNone &&
  (scanFirst (matchStartLineHere "pass".data) line).isNone &&
  (scanFirst (matchStartLineHere "fail".data) line).isNone &&
  !(matchBare "pass".data line) && !(matchBare "fail".data line)

/-- Override: the first option when present, else the second (how a later
field assignment shadows an earlier one). -/
def ovr (a b : Option α) : Option α :=
  match a with
  | some x => some x
  | none => b

/-- Field-wise override of one metrics record over another (later
assignments shadow earlier state). -/
def mergeLab (top base : LabMetrics) : LabMetrics :=
  { testsPassed := ovr top.testsPassed base.testsPassed
    agentSuccess := ovr top.agentSuccess base.agentSuccess
    codeChangesMade := ovr top.codeChangesMade base.codeChangesMade
    noSyntaxErrors := ovr top.noSyntaxErrors base.noSyntaxErrors
    conversationLength := ovr top.conversationLength base.conversationLength
    successfulEdits := ovr top.successfulEdits base.successfulEdits
    finalCodeFiles := ovr top.finalCodeFiles base.finalCodeFiles }

/-- The loop invariant of the step reconstructor: iteration indices are
bounded by the running maximum, every step is a `start` or an `iteration`
step, the tool-call counter counts the iteration steps, and every
iteration step records its tool name in its content. -/
def StateInv (s : PState) : Prop :=
  (∀ st ∈ s.steps, st.iteration ≤ s.totalIterations) ∧
  (∀ k, s.currentIteration = some k → k ≤ s.totalIterations) ∧
  (∀ st ∈ s.steps, st.type = "start".data ∨ st.type = "iteration".data) ∧
  s.toolCalls = (s.steps.filter fun st => st.type = "iteration".data).length ∧
  (∀ st ∈ s.steps, st.type = "iteration".data →
    ∃ n, st.toolCall = some n ∧ st.content = "Executing ".data ++ n)

/-! ### Basic lemmas about `trim` -/

theorem dropWhile_head_false {p : Char → Bool} {l : Str} :
    ∀ c ∈ (l.dropWhile p).head?, p c = false := by
  induction l with
  | nil => simp
  | cons c cs ih =>
    intro d hd
    rw [List.dropWhile_cons] at hd
    by_cases h : p c = true
    · rw [if_pos h] at hd
      exact ih d hd
    · rw [if_neg h] at hd
      simp only [List.head?_cons, Option.mem_def, Option.some.injEq] at hd
      subst hd
      simpa using h

theorem dropWhile_dropWhile {p : Char → Bool} (l : Str) :
    (l.dropWhile p).dropWhile p = l.dropWhile p := by
  induction l with
  | nil => rfl
  | cons c cs ih =>
    by_cases h : p c = true
    · simp [List.dropWhile_cons, h, ih]
    · simp [List.dropWhile_cons, h]

theorem dropWhile_eq_self_of_head {p : Char → Bool} :
    ∀ {x : Str}, (∀ c ∈ x.head?, p c = false) → x.dropWhile p = x
  | [], _ => rfl
  | c :: _, h => by
    have hc : p c = false := h c (by simp)
    simp [List.dropWhile_cons, hc]

theorem trimRight_prefix (l : Str) : ∃ r, trimRight l ++ r = l := by
  refine ⟨(l.reverse.takeWhile jsWs).reverse, ?_⟩
  have ht : l.reverse.takeWhile jsWs ++ l.reverse.dropWhile jsWs = l.reverse :=
    List.takeWhile_append_dropWhile jsWs l.reverse
  have h2 := congrArg List.reverse ht
  rw [List.reverse_append, List.reverse_reverse] at h2
  exact h2

theorem trimRight_trimRight (l : Str) : trimRight (trimRight l) = trimRight l := by
  simp [trimRight, List.reverse_reverse, dropWhile_dropWhile]

theorem trim_trim (l : Str) : trim (trim l) = trim l := by
  have hstep : (trim l).dropWhile jsWs = trim l := by
    obtain ⟨r, hr⟩ := trimRight_prefix (l.dropWhile jsWs)
    apply dropWhile_eq_self_of_head
    intro c hc
    cases htl : trim l with
    | nil => rw [htl] at hc; simp at hc
    | cons d ds =>
      rw [htl] at hc
      simp only [List.head?_cons, Option.mem_def, Option.some.injEq] at hc
      have hpre : d :: ds ++ r = l.dropWhile jsWs := by
        rw [← htl]; exact hr
      have hd : (l.dropWhile jsWs).head? = some d := by
        rw [← hpre]; simp
      have hh := dropWhile_head_false (p := jsWs) (l := l) d (by simpa using hd)
      rw [hc] at hh
      exact hh
  show trimRight ((trim l).dropWhile jsWs) = trim l
  rw [hstep]
  show trimRight (trimRight (l.dropWhile jsWs)) = trim l
  rw [trimRight_trimRight]
  rfl

/-! ### C1: Outcome Extractor -/

theorem foldl_some_eq_getLast (ms : List (Nat × Nat)) :
    ∀ init : Option (Nat × Nat),
      ms.foldl (fun _ m => some m) init =
        match ms.getLast? with
        | some x => some x
        | none => init := by
  induction ms with
  | nil => intro init; rfl
  | cons x xs ih =>
    intro init
    rw [List.foldl_cons, ih (some x)]
    cases hx : xs.getLast? with
    | some y => simp [List.getLast?_cons, hx]
    | none =>
      have : xs = [] := by
        cases xs with
        | nil => rfl
        | cons z zs => simp [List.getLast?_cons] at hx
      subst this
      rfl

theorem lastMatch_eq_getLast (ms : List (Nat × Nat)) :
    lastMatch ms = ms.getLast? := by
  unfold lastMatch
  rw [foldl_some_eq_getLast ms none]
  cases ms.getLast? <;> rfl

/-- C1. Final-outcome determination: `determineFinalSuccess` scans all
occurrences of `Total tests: X/Y passed` and the last occurrence wins,
yielding success iff `X = Y` and `Y > 0` (a zero denominator is failure
regardless of `X`); with no such occurrence it applies the same rule to
the occurrences of `Passed X/Y tests`, and with neither pattern the
result is `false`.  In particular `3/5` followed by `5/5` succeeds, and a
lone `0/0` fails. -/
theorem outcome_extractor_last_wins :
    (∀ content : Str, determineFinalSuccess content = outcomeSpec content) ∧
    determineFinalSuccess
      ("Total tests: 3/5 passed\nmore output\nTotal tests: 5/5 passed".data) = true ∧
    determineFinalSuccess ("Total tests: 0/0 passed".data) = false := by
  refine ⟨?_, by decide, by decide⟩
  intro content
  unfold determineFinalSuccess outcomeSpec
  rw [lastMatch_eq_getLast, lastMatch_eq_getLast]
  cases (findTotalAll content).getLast? with
  | some xy =>
    obtain ⟨x, y⟩ := xy
    by_cases hy : 0 < y <;> simp [hy]
  | none =>
    cases (findPassedAll content).getLast? with
    | some xy =>
      obtain ⟨x, y⟩ := xy
      by_cases hy : 0 < y <;> simp [hy]
    | none => rfl

/-! ### C6: Line Normalizer -/

theorem stripEmojiPrefix_eq_self {t : Str} (h : startsWithEmojiWs t = false) :
    stripEmojiPrefix t = t := by
  match t with
  | [] => rfl
  | [c] =>
    by_cases hg : c ∈ emojiGlyphs <;> simp [stripEmojiPrefix, hg]
  | c :: c₂ :: rest =>
    unfold startsWithEmojiWs at h
    unfold stripEmojiPrefix
    by_cases hg : c ∈ emojiGlyphs
    · have hw : jsWs c₂ = false := by
        by_contra hw'
        simp only [Bool.not_eq_false] at hw'
        simp [hg, hw'] at h
      simp [hg, hw]
    · simp [hg]

/-- Counterexample to C6 as stated: stripping one recognized prefix can
expose another, so a second application of `normalizeLine` is not always
a no-op (here on the line `"⏱ ⏱ x"`). -/
theorem normalizeLine_not_idempotent :
    normalizeLine (normalizeLine ['⏱', ' ', '⏱', ' ', 'x']) ≠
      normalizeLine ['⏱', ' ', '⏱', ' ', 'x'] := by decide

/-- C6 (amended). `normalizeLine` is idempotent on every line whose first
application does not again begin with a recognized glyph followed by
whitespace; when it does (the counterexample), the second application
strips a further prefix. -/
theorem normalizeLine_idempotent_of_normalized (s : Str)
    (h : startsWithEmojiWs (normalizeLine s) = false) :
    normalizeLine (normalizeLine s) = normalizeLine s := by
  show normalizeLine (trim (stripEmojiPrefix s)) = normalizeLine s
  unfold normalizeLine
  rw [stripEmojiPrefix_eq_self (t := trim (stripEmojiPrefix s)) h]
  exact trim_trim _

theorem normalizeLine_idempotent_witness :
    startsWithEmojiWs (normalizeLine ['⏱', ' ', 'x']) = false ∧
    normalizeLine (normalizeLine ['⏱', ' ', 'x']) = normalizeLine ['⏱', ' ', 'x'] :=
  ⟨by decide, normalizeLine_idempotent_of_normalized ['⏱', ' ', 'x'] (by decide)⟩

/-! ### C7: Diff Extractor -/

/-- Counterexample to C7 as stated: for an *empty* embedded diff the
source's truthiness check yields `agentLines = 0`, not the newline-split
length `1` the claim requires. -/
theorem diff_empty_lines_counterexample :
    (extractDiffs "'agent_diff': ''".data).agentDiff = some [] ∧
    (extractDiffs "'agent_diff': ''".data).diffStats.agentLines ≠
      (splitNl ([] : Str)).length := by
  exact ⟨rfl, by decide⟩

theorem extractDiffs_agentLines_eq (c : Str) :
    (extractDiffs c).diffStats.agentLines =
      match (extractDiffs c).agentDiff with
      | some d => if d.isEmpty then 0 else (splitNl d).length
      | none => 0 := by
  unfold extractDiffs
  cases (findDiffRaw "agent_diff".data c).map jsUnescapeDiff <;> rfl

theorem extractDiffs_goldenLines_eq (c : Str) :
    (extractDiffs c).diffStats.goldenLines =
      match (extractDiffs c).goldenDiff with
      | some d => if d.isEmpty then 0 else (splitNl d).length
      | none => 0 := by
  unfold extractDiffs
  cases (findDiffRaw "golden_diff".data c).map jsUnescapeDiff <;> rfl

/-- C7 (amended). The returned diff text is the raw capture with `\'`,
`\n`, `\t` unescaped in that order, and the line statistics are the
newline-split length of the *nonempty* diff text; an empty diff text is
falsy in the source and yields a line count of `0` (not `1`).  The raw
capture always ends at the first quote — the `\\'` alternation of the
capture regex is dead because `[^']*` consumes backslashes — so on
`'a\'b'` only `a\` is captured. -/
theorem diff_unescape_and_line_stats :
    (extractDiffs "run: 'agent_diff': 'line1\\nline2' end".data).agentDiff =
      some ("line1\nline2".data) ∧
    (extractDiffs "run: 'agent_diff': 'line1\\nline2' end".data).diffStats.agentLines = 2 ∧
    (∀ c : Str,
      (extractDiffs c).agentDiff = (findDiffRaw "agent_diff".data c).map jsUnescapeDiff ∧
      (extractDiffs c).goldenDiff = (findDiffRaw "golden_diff".data c).map jsUnescapeDiff) ∧
    (∀ c d, (extractDiffs c).agentDiff = some d → d.isEmpty = false →
      (extractDiffs c).diffStats.agentLines = (splitNl d).length) ∧
    (∀ c d, (extractDiffs c).agentDiff = some d → d.isEmpty = true →
      (extractDiffs c).diffStats.agentLines = 0) ∧
    (∀ c d, (extractDiffs c).goldenDiff = some d → d.isEmpty = false →
      (extractDiffs c).diffStats.goldenLines = (splitNl d).length) ∧
    findDiffRaw "agent_diff".data "'agent_diff': 'a\\'b'".data = some "a\\".data := by
  refine ⟨by decide, by decide, fun c => ⟨rfl, rfl⟩, ?_, ?_, ?_, by decide⟩
  · intro c d h hne
    rw [extractDiffs_agentLines_eq, h]
    simp [hne]
  · intro c d h he
    rw [extractDiffs_agentLines_eq, h]
    simp [he]
  · intro c d h hne
    rw [extractDiffs_goldenLines_eq, h]
    simp [hne]

theorem diff_unescape_and_line_stats_witness :
    ((extractDiffs "run: 'agent_diff': 'line1\\nline2' end".data).agentDiff =
       some ("line1\nline2".data)) ∧
    (("line1\nline2".data : Str).isEmpty = false) ∧
    (extractDiffs "run: 'agent_diff': 'line1\\nline2' end".data).diffStats.agentLines =
      (splitNl ("line1\nline2".data)).length :=
  ⟨by decide, by decide,
    diff_unescape_and_line_stats.2.2.2.1
      ("run: 'agent_diff': 'line1\\nline2' end".data)
      ("line1\nline2".data) (by decide) (by decide)⟩

/-! ### C9: Lab Training Metrics Extractor -/

theorem ovr_some (x : α) (b : Option α) : ovr (some x) b = some x := rfl

theorem ovr_none_right (a : Option α) : ovr a none = a := by
  cases a <;> rfl

theorem getLast?_cons_ovr (a : α) (l : List α) :
    (a :: l).getLast? = ovr l.getLast? (some a) := by
  induction l generalizing a with
  | nil => rfl
  | cons b bs ih =>
    rw [List.getLast?_cons_cons, ih b]
    show ovr bs.getLast? (some b) = ovr (ovr bs.getLast? (some b)) (some a)
    cases bs.getLast? <;> rfl

theorem lastLab_cons (l : Str) (ls : List Str) :
    lastLab (l :: ls) =
      match classifyLab (trim l) with
      | .tp b => { lastLab ls with
          testsPassed := ovr (lastLab ls).testsPassed (some b) }
      | .ags b => { lastLab ls with
          agentSuccess := ovr (lastLab ls).agentSuccess (some b) }
      | .ccm b => { lastLab ls with
          codeChangesMade := ovr (lastLab ls).codeChangesMade (some b) }
      | .nse b => { lastLab ls with
          noSyntaxErrors := ovr (lastLab ls).noSyntaxErrors (some b) }
      | .cl n => { lastLab ls with
          conversationLength := ovr (lastLab ls).conversationLength (some n) }
      | .se n => { lastLab ls with
          successfulEdits := ovr (lastLab ls).successfulEdits (some n) }
      | .fcf n => { lastLab ls with
          finalCodeFiles := ovr (lastLab ls).finalCodeFiles (some n) }
      | .stop => {}
      | .skip => lastLab ls := by
  cases hc : classifyLab (trim l) <;>
    simp [lastLab, List.takeWhile_cons, hc, List.filterMap_cons, getLast?_cons_ovr]

theorem applyLab_eq (w : List Str) :
    ∀ m, applyLab m w = mergeLab (lastLab w) m := by
  induction w with
  | nil =>
    intro m
    simp [applyLab, lastLab, mergeLab, ovr]
  | cons l ls ih =>
    intro m
    rw [lastLab_cons]
    cases hc : classifyLab (trim l) <;>
      simp only [applyLab, hc, ih, mergeLab] <;>
      cases (lastLab ls).testsPassed <;>
      cases (lastLab ls).agentSuccess <;>
      cases (lastLab ls).codeChangesMade <;>
      cases (lastLab ls).noSyntaxErrors <;>
      cases (lastLab ls).conversationLength <;>
      cases (lastLab ls).successfulEdits <;>
      cases (lastLab ls).finalCodeFiles <;>
      rfl

theorem applyLab_empty (w : List Str) : applyLab {} w = lastLab w := by
  rw [applyLab_eq]
  show mergeLab (lastLab w) {} = lastLab w
  unfold mergeLab
  simp only [ovr_none_right]

/-- Counterexample to C9 as stated: the inner loop runs for
`j < min(i + 20, length)` starting at `j = i + 1`, i.e. over only 19
lines after the marker; a label on the 20th line after the marker is not
scanned, so the claimed 20-line window yields a populated record where
the code yields an absent one. -/
theorem lab_window_counterexample :
    parseLabTrainingMetrics
      ("-- Lab Training Metrics --\nx\nx\nx\nx\nx\nx\nx\nx\nx\nx\nx\nx\nx\nx\nx\nx\nx\nx\nx\nTests Passed: True".data) = none ∧
    labSpecContent 20
      ("-- Lab Training Metrics --\nx\nx\nx\nx\nx\nx\nx\nx\nx\nx\nx\nx\nx\nx\nx\nx\nx\nx\nx\nTests Passed: True".data) =
      some { testsPassed := some true } := by
  exact ⟨rfl, rfl⟩

/-- C9 (amended). The extractor finds the first `-- Lab Training Metrics --`
line and scans up to the next *19* lines (not 20), stopping early at a
`-- Details --` marker; if the marker never occurs the result is absent,
and otherwise exactly the labelled fields assigned in that window (last
assignment winning, integer fields requiring a parseable number) are
populated.  A label on the 19th line after the marker is still scanned. -/
theorem lab_metrics_window :
    (∀ content : Str,
      parseLabTrainingMetrics content = labSpecContent 19 content) ∧
    parseLabTrainingMetrics
      ("-- Lab Training Metrics --\nx\nx\nx\nx\nx\nx\nx\nx\nx\nx\nx\nx\nx\nx\nx\nx\nx\nx\nTests Passed: True".data) =
      some { testsPassed := some true } := by
  refine ⟨?_, rfl⟩
  intro content
  unfold parseLabTrainingMetrics labSpecContent
  generalize splitLines content = lines
  induction lines with
  | nil => rfl
  | cons l ls ih =>
    unfold labGo labSpec
    by_cases hm : containsSub "-- Lab Training Metrics --".data (trim l) = true
    · simp only [hm, if_true, applyLab_empty]
    · simp only [hm, if_false, ih]
      simp [hm, ih]

/-! ### C4: Test Result Extractor -/

theorem processTestsGo_succ_cons (fuel : Nat) (l₀ : Str) (tail : List Str) :
    processTestsGo (fuel + 1) (l₀ :: tail) =
      (match scanFirst (matchResLineHere "pass".data "PASSED".data) (trim l₀) with
      | some (fp, tn, _) => mkResult .pass fp tn :: processTestsGo fuel tail
      | none =>
      match scanFirst (matchResLineHere "fail".data "FAILED".data) (trim l₀) with
      | some (fp, tn, _) => mkResult .fail fp tn :: processTestsGo fuel tail
      | none =>
      match tail with
      | [] => []
      | t₁ :: ts =>
        match scanFirst (matchStartLineHere "pass".data) (trim l₀) with
        | some (fp, tn) =>
          if trim t₁ = "PASSED".data then mkResult .pass fp tn :: processTestsGo fuel ts
          else processTestsGo fuel (t₁ :: ts)
        | none =>
        match scanFirst (matchStartLineHere "fail".data) (trim l₀) with
        | some (fp, tn) =>
          if trim t₁ = "FAILED".data then mkResult .fail fp tn :: processTestsGo fuel ts
          else processTestsGo fuel (t₁ :: ts)
        | none =>
        if matchBare "pass".data (trim l₀) then
          match lookAcross ": PASSED".data "PASSED".data "FAILED".data [] 3 1 (t₁ :: ts) with
          | some (path, k) =>
            if containsSub "::".data path then
              match splitFirstColons path with
              | some (fp, tn) => mkResult .pass fp tn :: processTestsGo fuel ((t₁ :: ts).drop k)
              | none => processTestsGo fuel (t₁ :: ts)
            else processTestsGo fuel (t₁ :: ts)
          | none => processTestsGo fuel (t₁ :: ts)
        else if matchBare "fail".data (trim l₀) then
          match lookAcross ": FAILED".data "FAILED".data "PASSED".data [] 3 1 (t₁ :: ts) with
          | some (path, k) =>
            if containsSub "::".data path then
              match splitFirstColons path with
              | some (fp, tn) => mkResult .fail fp tn :: processTestsGo fuel ((t₁ :: ts).drop k)
              | none => processTestsGo fuel (t₁ :: ts)
            else processTestsGo fuel (t₁ :: ts)
          | none => processTestsGo fuel (t₁ :: ts)
        else processTestsGo fuel (t₁ :: ts)) := rfl

theorem processTestsGo_fullName :
    ∀ fuel (ls : List Str), ∀ r ∈ processTestsGo fuel ls,
      ∃ p : Str, r.fullName = p ++ "::".data ++ r.name := by
  intro fuel
  induction fuel with
  | zero => intro ls r hr; simp [processTestsGo] at hr
  | succ n ih =>
    intro ls r hr
    match ls with
    | [] => simp [processTestsGo] at hr
    | l₀ :: tail =>
      rw [processTestsGo_succ_cons] at hr
      repeat' split at hr
      all_goals try simp only [List.mem_cons] at hr
      all_goals
        first
        | simp at hr
        | (rcases hr with h | h
           · subst h; exact ⟨_, rfl⟩
           · exact ih _ r h)
        | exact ih _ r hr

/-- C4. Test extractor format equivalence: the single-line form, the
split-terminator form, the two-line standalone-`pass` form and the
three-line split form of the same semantic content all produce the
identical `TestResult`; nested `::` is preserved in the test name; the
greedy `\s+` backtracks, so a whitespace-initial path capture is matched
(`pass  ::b: PASSED` captures the path `" "` after one space); and
every extracted result satisfies `fullName = path ++ "::" ++ name`. -/
theorem test_extractor_shape_equivalence :
    parseTestResults ("pass tasks/a.py::test_x: PASSED".data) =
      [⟨"test_x".data, .pass, "tasks/a.py::test_x".data⟩] ∧
    parseTestResults ("pass tasks/a.py::test_x:\nPASSED".data) =
      [⟨"test_x".data, .pass, "tasks/a.py::test_x".data⟩] ∧
    parseTestResults ("pass\ntasks/a.py::test_x: PASSED".data) =
      [⟨"test_x".data, .pass, "tasks/a.py::test_x".data⟩] ∧
    parseTestResults ("pass\ntasks/a.py::test_x\n: PASSED".data) =
      [⟨"test_x".data, .pass, "tasks/a.py::test_x".data⟩] ∧
    parseTestResults ("pass a.py::t::sub: PASSED".data) =
      [⟨"t::sub".data, .pass, "a.py::t::sub".data⟩] ∧
    parseTestResults ("pass  ::b: PASSED".data) =
      [⟨"b".data, .pass, " ::b".data⟩] ∧
    ∀ c : Str, ∀ r ∈ parseTestResults c,
      ∃ p : Str, r.fullName = p ++ "::".data ++ r.name := by
  refine ⟨by decide, by decide, by decide, by decide, by decide, by decide, ?_⟩
  intro c r hr
  exact processTestsGo_fullName _ _ r hr

theorem test_extractor_shape_equivalence_witness :
    (⟨"test_x".data, .pass, "tasks/a.py::test_x".data⟩ : TestResult) ∈
      parseTestResults ("pass tasks/a.py::test_x: PASSED".data) ∧
    ∃ p : Str,
      (⟨"test_x".data, .pass, "tasks/a.py::test_x".data⟩ : TestResult).fullName =
        p ++ "::".data ++
          (⟨"test_x".data, .pass, "tasks/a.py::test_x".data⟩ : TestResult).name :=
  ⟨by decide,
   test_extractor_shape_equivalence.2.2.2.2.2.2
     ("pass tasks/a.py::test_x: PASSED".data)
     ⟨"test_x".data, .pass, "tasks/a.py::test_x".data⟩ (by decide)⟩

/-! ### State-machine invariant lemmas -/

theorem updSteps_cons_succ (g : TrajectoryStep → TrajectoryStep) (k : Nat)
    (x : TrajectoryStep) (xs : List TrajectoryStep) :
    updSteps g (k + 1) (x :: xs) = x :: updSteps g k xs := by
  unfold updSteps
  cases h : xs[k]? <;>
    simp [List.get?_cons_succ, List.get?_eq_getElem?, h]

theorem updSteps_cons_zero (g : TrajectoryStep → TrajectoryStep)
    (x : TrajectoryStep) (xs : List TrajectoryStep) :
    updSteps g 0 (x :: xs) = g x :: xs := by
  unfold updSteps
  simp [List.get?_cons_zero]

theorem updSteps_forall {P : TrajectoryStep → Prop}
    (g : TrajectoryStep → TrajectoryStep) (hg : ∀ x, P x → P (g x)) :
    ∀ (l : List TrajectoryStep) (k : Nat), (∀ x ∈ l, P x) →
      ∀ x ∈ updSteps g k l, P x := by
  intro l
  induction l with
  | nil => intro k h x hx; exact absurd hx (by simp [updSteps])
  | cons y ys ih =>
    intro k h x hx
    cases k with
    | zero =>
      rw [updSteps_cons_zero] at hx
      rcases List.mem_cons.mp hx with h₁ | h₁
      · subst h₁; exact hg y (h y (by simp))
      · exact h x (by simp [h₁])
    | succ k =>
      rw [updSteps_cons_succ] at hx
      rcases List.mem_cons.mp hx with h₁ | h₁
      · subst h₁; exact h x (by simp)
      · exact ih k (fun z hz => h z (by simp [hz])) x h₁

theorem updSteps_filter_length (g : TrajectoryStep → TrajectoryStep)
    (p : TrajectoryStep → Bool) (hp : ∀ x, p (g x) = p x) :
    ∀ (l : List TrajectoryStep) (k : Nat),
      ((updSteps g k l).filter p).length = (l.filter p).length := by
  intro l
  induction l with
  | nil => intro k; rfl
  | cons y ys ih =>
    intro k
    cases k with
    | zero =>
      rw [updSteps_cons_zero]
      simp only [List.filter_cons, hp y]
      cases p y <;> simp
    | succ k =>
      rw [updSteps_cons_succ]
      simp only [List.filter_cons]
      cases p y <;> simp [ih k]

theorem stateInv_setCur (s : PState) (g : TrajectoryStep → TrajectoryStep)
    (hg : ∀ st, (g st).iteration = st.iteration ∧ (g st).type = st.type ∧
      (g st).toolCall = st.toolCall ∧ (g st).content = st.content)
    (h : StateInv s) : StateInv (setCur s g) := by
  obtain ⟨h₁, h₂, h₃, h₄, h₅⟩ := h
  unfold setCur
  cases hk : s.curIdx with
  | none => exact ⟨h₁, h₂, h₃, h₄, h₅⟩
  | some k =>
    refine ⟨?_, h₂, ?_, ?_, ?_⟩
    · exact updSteps_forall g (fun x hx => by rw [(hg x).1]; exact hx) s.steps k h₁
    · exact updSteps_forall g (fun x hx => by rw [(hg x).2.1]; exact hx) s.steps k h₃
    · show s.toolCalls = _
      rw [h₄]
      exact (updSteps_filter_length g _ (fun x => by simp [(hg x).2.1]) s.steps k).symm
    · refine updSteps_forall g ?_ s.steps k h₅
      intro x hx ht
      obtain ⟨n, hn₁, hn₂⟩ := hx (by rw [← (hg x).2.1]; exact ht)
      exact ⟨n, by rw [(hg x).2.2.1]; exact hn₁, by rw [(hg x).2.2.2]; exact hn₂⟩

theorem stateInv_append_start (s : PState) (st : TrajectoryStep)
    (hty : st.type = "start".data) (hit : st.iteration = 0)
    (h : StateInv s) : StateInv { s with steps := s.steps ++ [st] } := by
  obtain ⟨h₁, h₂, h₃, h₄, h₅⟩ := h
  refine ⟨?_, h₂, ?_, ?_, ?_⟩
  · intro x hx
    rcases List.mem_append.mp hx with h' | h'
    · exact h₁ x h'
    · simp at h'; subst h'; simp [hit]
  · intro x hx
    rcases List.mem_append.mp hx with h' | h'
    · exact h₃ x h'
    · simp at h'; subst h'; exact Or.inl hty
  · show s.toolCalls = _
    have hd : List.filter (fun st => decide (st.type = "iteration".data)) [st] = [] := by
      have hne : decide (st.type = "iteration".data) = false := by
        rw [hty]; decide
      simp [List.filter, hne]
    rw [List.filter_append, hd, List.length_append]
    simpa using h₄
  · intro x hx ht
    rcases List.mem_append.mp hx with h' | h'
    · exact h₅ x h' ht
    · simp at h'; subst h'
      rw [hty] at ht
      exact absurd ht (by decide)

theorem stateInv_rule1 (s : PState) (raw : Str) (h : StateInv s) :
    StateInv (rule1 s raw) := by
  unfold rule1
  exact stateInv_append_start s _ rfl rfl h

theorem stateInv_names (s : PState) (t m : Str) (h : StateInv s) :
    StateInv { s with taskName := t, modelName := m } := h

theorem rule2_shape :
    ∀ (parts : List Str) (s : PState), ∃ t m,
      (parts.foldl
        (fun acc part =>
          if containsSub "Model:".data part then
            { acc with modelName := trim ((afterFirstSub "Model:".data part).getD []) }
          else if containsSub "Task:".data part then
            { acc with taskName := trim ((afterFirstSub "Task:".data part).getD []) }
          else acc)
        s) = { s with taskName := t, modelName := m } := by
  intro parts
  induction parts with
  | nil => intro s; exact ⟨s.taskName, s.modelName, rfl⟩
  | cons p ps ih =>
    intro s
    rw [List.foldl_cons]
    by_cases h₁ : containsSub "Model:".data p = true
    · simp only [h₁, if_true]
      obtain ⟨t, m, hm⟩ := ih { s with modelName := trim ((afterFirstSub "Model:".data p).getD []) }
      exact ⟨t, m, hm⟩
    · simp only [h₁]
      by_cases h₂ : containsSub "Task:".data p = true
      · simp only [h₂, if_true, if_false]
        obtain ⟨t, m, hm⟩ := ih { s with taskName := trim ((afterFirstSub "Task:".data p).getD []) }
        exact ⟨t, m, hm⟩
      · simp only [h₂, if_false]
        exact ih s

theorem stateInv_rule2 (s : PState) (line : Str) (h : StateInv s) :
    StateInv (rule2 s line) := by
  unfold rule2
  obtain ⟨t, m, hm⟩ := rule2_shape (splitOnChar ',' line) s
  rw [hm]
  exact stateInv_names s t m h

theorem stateInv_rule3 (s : PState) (line : Str) (h : StateInv s) :
    StateInv (rule3 s line) := by
  obtain ⟨h₁, h₂, h₃, h₄, h₅⟩ := h
  unfold rule3
  cases scanFirst matchIterHere line with
  | none => exact ⟨h₁, h₂, h₃, h₄, h₅⟩
  | some n =>
    refine ⟨?_, ?_, h₃, h₄, h₅⟩
    · intro x hx
      exact le_trans (h₁ x hx) (le_max_left _ _)
    · intro k hk
      simp only [Option.some.injEq] at hk
      subst hk
      exact le_max_right _ _

theorem stateInv_rule4 (s : PState) (line raw : Str) (h : StateInv s) :
    StateInv (rule4 s line raw) := by
  obtain ⟨h₁, h₂, h₃, h₄, h₅⟩ := h
  unfold rule4
  cases scanFirst matchToolHere line with
  | none => exact ⟨h₁, h₂, h₃, h₄, h₅⟩
  | some name =>
    refine ⟨?_, h₂, ?_, ?_, ?_⟩
    · intro x hx
      rcases List.mem_append.mp hx with h' | h'
      · exact h₁ x h'
      · simp at h'; subst h'
        show s.currentIteration.getD 0 ≤ s.totalIterations
        cases hc : s.currentIteration with
        | none => simp
        | some k => simpa using h₂ k hc
    · intro x hx
      rcases List.mem_append.mp hx with h' | h'
      · exact h₃ x h'
      · simp at h'; subst h'; exact Or.inr rfl
    · show s.toolCalls + 1 = _
      rw [List.filter_append, List.length_append, ← h₄]
      simp [List.filter]
    · intro x hx ht
      rcases List.mem_append.mp hx with h' | h'
      · exact h₅ x h' ht
      · simp at h'; subst h'
        exact ⟨name, rfl, rfl⟩

theorem stateInv_rule6 (s : PState) (line : Str) (h : StateInv s) :
    StateInv (rule6 s line) := by
  unfold rule6
  cases scanFirst matchT0Here line with
  | none => exact h
  | some w =>
    show StateInv _
    by_cases hw : (toLowerStr w == "true".data) = true
    · simp only [hw, if_true]
      exact stateInv_setCur s _ (fun st => ⟨rfl, rfl, rfl, rfl⟩) h
    · simp only [Bool.not_eq_true] at hw
      simp only [hw, Bool.false_eq_true, if_false]
      exact stateInv_setCur s _ (fun st => ⟨rfl, rfl, rfl, rfl⟩) h

theorem stateInv_ruleCollect (s : PState) (line : Str) (h : StateInv s) :
    StateInv (ruleCollect s line) := by
  unfold ruleCollect
  exact stateInv_setCur s _ (fun st => ⟨rfl, rfl, rfl, rfl⟩) h

theorem stateInv_rule8 (s : PState) (line : Str) (h : StateInv s) :
    StateInv (rule8 s line) := by
  unfold rule8
  cases hg : getCur s with
  | none => exact h
  | some st =>
    by_cases he : jsFalsyStr st.error = true
    · simp only [he, if_true]
      exact stateInv_setCur s _ (fun st' => ⟨rfl, rfl, rfl, rfl⟩) h
    · simp only [if_neg he]
      exact h

theorem stateInv_ruleDetailField (s : PState) (v : Str)
    (g : ToolDetails → Str → ToolDetails) (h : StateInv s) :
    StateInv (ruleDetailField s v g) := by
  unfold ruleDetailField
  by_cases hv : v.isEmpty = true
  · simp only [hv, if_true]; exact h
  · simp only [hv, if_false]
    exact stateInv_setCur s _ (fun st => ⟨rfl, rfl, rfl, rfl⟩) h

theorem stateInv_ruleWriting (s : PState) (line : Str) (h : StateInv s) :
    StateInv (ruleWriting s line) := by
  unfold ruleWriting
  cases scanFirst matchWritingHere line with
  | none => exact h
  | some bp =>
    obtain ⟨bytes, path⟩ := bp
    exact stateInv_setCur s _ (fun st => ⟨rfl, rfl, rfl, rfl⟩) h

set_option maxHeartbeats 3200000 in
theorem stateInv_processLine (s : PState) (raw : Str) (h : StateInv s) :
    StateInv (processLine s raw) := by
  unfold processLine
  by_cases hc1 : (trim raw).isEmpty = true
  · rw [if_pos hc1]
    exact h
  · rw [if_neg hc1]
    by_cases hc2 : containsSub "Starting benchmark run".data (normalizeLine (trim raw)) = true
    · rw [if_pos hc2]
      exact stateInv_rule1 s _ h
    · rw [if_neg hc2]
      by_cases hc3 : (containsSub "Dataset:".data (normalizeLine (trim raw))
                  && containsSub "Agent:".data (normalizeLine (trim raw))
                  && containsSub "Model:".data (normalizeLine (trim raw))) = true
      · rw [if_pos hc3]
        exact stateInv_rule2 s _ h
      · rw [if_neg hc3]
        by_cases hc4 : (containsSub "HARNESS: Iteration".data (normalizeLine (trim raw))
                    && containsSub "making LLM call".data (normalizeLine (trim raw))) = true
        · rw [if_pos hc4]
          exact stateInv_rule3 s _ h
        · rw [if_neg hc4]
          by_cases hc5 : (containsSub "HARNESS: Tool call".data (normalizeLine (trim raw))
                      && s.currentIteration.isSome) = true
          · rw [if_pos hc5]
            exact stateInv_rule4 s _ _ h
          · rw [if_neg hc5]
            by_cases hc6 : ((getCur s).isSome
                        && containsSub "HARNESS: Edit target:".data (normalizeLine (trim raw))) = true
            · rw [if_pos hc6]
              exact stateInv_ruleDetailField s _ _ h
            · rw [if_neg hc6]
              by_cases hc7 : ((getCur s).isSome
                          && containsSub "HARNESS: Edit instructions:".data (normalizeLine (trim raw))) = true
              · rw [if_pos hc7]
                exact stateInv_ruleDetailField s _ _ h
              · rw [if_neg hc7]
                by_cases hc8 : ((getCur s).isSome
                            && containsSub "HARNESS: Line edits count:".data (normalizeLine (trim raw))) = true
                · rw [if_pos hc8]
                  exact stateInv_ruleDetailField s _ _ h
                · rw [if_neg hc8]
                  by_cases hc9 : ((getCur s).isSome
                              && (scanFirst editSplitHere (normalizeLine (trim raw))).isSome) = true
                  · rw [if_pos hc9]
                    exact stateInv_ruleDetailField s _ _ h
                  · rw [if_neg hc9]
                    by_cases hc10 : ((getCur s).isSome
                                && containsSub "HARNESS: Python syntax validation passed".data (normalizeLine (trim raw))) = true
                    · rw [if_pos hc10]
                      exact stateInv_setCur s _ (fun st => ⟨rfl, rfl, rfl, rfl⟩) h
                    · rw [if_neg hc10]
                      by_cases hc11 : ((getCur s).isSome
                                  && containsSub "HARNESS: Python syntax error".data (normalizeLine (trim raw))) = true
                      · rw [if_pos hc11]
                        exact stateInv_setCur s _ (fun st => ⟨rfl, rfl, rfl, rfl⟩) h
                      · rw [if_neg hc11]
                        by_cases hc12 : ((getCur s).isSome
                                    && containsSub "HARNESS: SYNTAX ERROR at line".data (normalizeLine (trim raw))) = true
                        · rw [if_pos hc12]
                          exact stateInv_ruleDetailField s _ _ h
                        · rw [if_neg hc12]
                          by_cases hc13 : ((getCur s).isSome
                                      && containsSub "HARNESS: Changes applied:".data (normalizeLine (trim raw))) = true
                          · rw [if_pos hc13]
                            exact stateInv_ruleDetailField s _ _ h
                          · rw [if_neg hc13]
                            by_cases hc14 : ((getCur s).isSome
                                        && containsSub "HARNESS: Changes that would have been applied:".data (normalizeLine (trim raw))) = true
                            · rw [if_pos hc14]
                              exact stateInv_ruleDetailField s _ _ h
                            · rw [if_neg hc14]
                              by_cases hc15 : ((getCur s).isSome
                                          && containsSub "HARNESS: Attempted changes:".data (normalizeLine (trim raw))) = true
                              · rw [if_pos hc15]
                                exact stateInv_ruleDetailField s _ _ h
                              · rw [if_neg hc15]
                                by_cases hc16 : ((getCur s).isSome
                                            && containsSub "HARNESS: Writing".data (normalizeLine (trim raw))
                                            && containsSub "characters to".data (normalizeLine (trim raw))) = true
                                · rw [if_pos hc16]
                                  exact stateInv_ruleWriting s _ h
                                · rw [if_neg hc16]
                                  by_cases hc17 : (s.collecting && (getCur s).isSome
                                              && ¬ (normalizeLine (trim raw)).isEmpty) = true
                                  · rw [if_pos hc17]
                                    exact stateInv_ruleCollect s _ h
                                  · rw [if_neg hc17]
                                    by_cases hc18 : (containsSub "Tool 0 result success:".data (normalizeLine (trim raw))
                                                && (getCur s).isSome) = true
                                    · rw [if_pos hc18]
                                      exact stateInv_rule6 s _ h
                                    · rw [if_neg hc18]
                                      by_cases hc19 : (containsSub "ERROR".data (toUpperStr (normalizeLine (trim raw)))
                                                  && (getCur s).isSome) = true
                                      · rw [if_pos hc19]
                                        exact stateInv_rule8 s _ h
                                      · rw [if_neg hc19]
                                        exact h

theorem stateInv_foldl (lines : List Str) :
    ∀ s, StateInv s → StateInv (lines.foldl processLine s) := by
  induction lines with
  | nil => intro s h; exact h
  | cons l ls ih =>
    intro s h
    rw [List.foldl_cons]
    exact ih _ (stateInv_processLine s l h)

theorem stateInv_init (fn : Str) : StateInv (initState fn) := by
  refine ⟨?_, ?_, ?_, rfl, ?_⟩ <;> simp [initState]

theorem maxIter_le (l : List TrajectoryStep) (b : Nat)
    (h : ∀ st ∈ l, st.iteration ≤ b) : maxIter l ≤ b := by
  induction l with
  | nil => simp [maxIter]
  | cons x xs ih =>
    show max x.iteration (maxIter xs) ≤ b
    exact max_le (h x (by simp)) (ih fun st hst => h st (by simp [hst]))

/-- C3. Trajectory result invariant: `totalIterations` bounds the maximum
step iteration (0 for no steps), `testsPassed` counts the passing entries
of `testResults`, and `totalTests` is its length. -/
theorem trajectory_result_invariant (fn c : Str) :
    maxIter (parseLogFile fn c).steps ≤ (parseLogFile fn c).totalIterations ∧
    (parseLogFile fn c).testsPassed =
      ((parseLogFile fn c).testResults.filter fun t => t.status = .pass).length ∧
    (parseLogFile fn c).totalTests = (parseLogFile fn c).testResults.length := by
  obtain ⟨h₁, _, _, _, _⟩ :=
    stateInv_foldl (splitLines c) (initState fn) (stateInv_init fn)
  exact ⟨maxIter_le _ _ h₁, rfl, rfl⟩

/-- C10. Step/tool-call accounting: every step is a `start` or an
`iteration` step, `toolCalls` equals the number of `iteration` steps, and
every `iteration` step's content is `"Executing "` followed by its tool
name. -/
theorem step_tool_call_accounting (fn c : Str) :
    ((parseLogFile fn c).steps.all fun st =>
      decide (st.type = "start".data) || decide (st.type = "iteration".data)) = true ∧
    (parseLogFile fn c).toolCalls =
      ((parseLogFile fn c).steps.filter fun st => st.type = "iteration".data).length ∧
    ((parseLogFile fn c).steps.all fun st =>
      if st.type = "iteration".data then
        match st.toolCall with
        | some n => decide (st.content = "Executing ".data ++ n)
        | none => false
      else true) = true := by
  obtain ⟨_, _, h₃, h₄, h₅⟩ :=
    stateInv_foldl (splitLines c) (initState fn) (stateInv_init fn)
  refine ⟨?_, h₄, ?_⟩
  · rw [List.all_eq_true]
    intro st hst
    rcases h₃ st hst with h' | h' <;> simp [h']
  · rw [List.all_eq_true]
    intro st hst
    by_cases ht : st.type = "iteration".data
    · obtain ⟨n, hn, hc⟩ := h₅ st hst ht
      simp [ht, hn, hc]
    · simp [ht]

/-! ### C2: totality and the worst case -/

theorem processLine_inert (s : PState) (raw : Str)
    (hci : s.currentIteration = none) (hcx : s.curIdx = none)
    (hco : s.collecting = false) (hin : inertLine raw = true) :
    processLine s raw = s := by
  unfold inertLine at hin
  simp only [Bool.and_eq_true, Bool.not_eq_true'] at hin
  obtain ⟨⟨h1, h2⟩, h3⟩ := hin
  have hcur : getCur s = none := by simp [getCur, hcx]
  unfold processLine
  simp [h1, h2, h3, hci, hcx, hco, hcur]

theorem foldl_inert (lines : List Str) :
    ∀ s : PState, s.currentIteration = none → s.curIdx = none →
      s.collecting = false → (∀ l ∈ lines, inertLine l = true) →
      lines.foldl processLine s = s := by
  induction lines with
  | nil => intro s _ _ _ _; rfl
  | cons l ls ih =>
    intro s hci hcx hco hall
    rw [List.foldl_cons, processLine_inert s l hci hcx hco (hall l (by simp))]
    exact ih s hci hcx hco fun x hx => hall x (by simp [hx])

theorem processTestsGo_inert :
    ∀ fuel (ls : List Str), (∀ l ∈ ls, testInertLine l = true) →
      processTestsGo fuel ls = [] := by
  intro fuel
  induction fuel with
  | zero => intro ls _; rfl
  | succ n ih =>
    intro ls hall
    match ls with
    | [] => rfl
    | l₀ :: tail =>
      have h0 := hall l₀ (by simp)
      unfold testInertLine at h0
      simp only [Bool.and_eq_true, Option.isNone_iff_eq_none, Bool.not_eq_true'] at h0
      obtain ⟨⟨⟨⟨⟨hm1, hm2⟩, hm3⟩, hm4⟩, hm5⟩, hm6⟩ := h0
      rw [processTestsGo_succ_cons]
      simp only [hm1, hm2, hm3, hm4, hm5, hm6]
      match tail with
      | [] => rfl
      | t₁ :: ts =>
        simp only [Bool.false_eq_true, if_false]
        exact ih (t₁ :: ts) fun x hx => hall x (by simp [hx])

/-- C2. Totality of the parse entry point: `parseLogFile` is a total
function of its two string inputs, and on content in which no expected
pattern occurs anywhere it returns the mostly-empty record: no steps, no
test results, `finalSuccess = false`, and zero tool calls, errors and
iterations. -/
theorem parse_totality_worst_case (fn c : Str)
    (h₁ : ((splitLines c).all inertLine) = true)
    (h₂ : ((splitLines c).all testInertLine) = true)
    (h₃ : findTotalAll c = [])
    (h₄ : findPassedAll c = []) :
    (parseLogFile fn c).steps = [] ∧
    (parseLogFile fn c).testResults = [] ∧
    (parseLogFile fn c).finalSuccess = false ∧
    (parseLogFile fn c).toolCalls = 0 ∧
    (parseLogFile fn c).errors = 0 ∧
    (parseLogFile fn c).totalIterations = 0 := by
  rw [List.all_eq_true] at h₁ h₂
  have hfold : (splitLines c).foldl processLine (initState fn) = initState fn :=
    foldl_inert (splitLines c) (initState fn) rfl rfl rfl h₁
  have htests : parseTestResults c = [] :=
    processTestsGo_inert (splitLines c).length (splitLines c) h₂
  have hout : determineFinalSuccess c = false := by
    unfold determineFinalSuccess
    rw [h₃, h₄]
    rfl
  refine ⟨?_, ?_, ?_, ?_, ?_, ?_⟩ <;>
    simp only [parseLogFile, hfold, htests, hout] <;> rfl

theorem parse_totality_worst_case_witness :
    ((splitLines "hello agent\nsecond line".data).all inertLine) = true ∧
    (parseLogFile "run.log".data "hello agent\nsecond line".data).steps = [] ∧
    (parseLogFile "run.log".data "hello agent\nsecond line".data).testResults = [] ∧
    (parseLogFile "run.log".data "hello agent\nsecond line".data).finalSuccess = false :=
  ⟨by decide,
   (parse_totality_worst_case "run.log".data "hello agent\nsecond line".data
      (by decide) (by decide) (by decide) (by decide)).1,
   (parse_totality_worst_case "run.log".data "hello agent\nsecond line".data
      (by decide) (by decide) (by decide) (by decide)).2.1,
   (parse_totality_worst_case "run.log".data "hello agent\nsecond line".data
      (by decide) (by decide) (by decide) (by decide)).2.2.1⟩

/-! ### C5: error counting for `Tool 0 result success: False` lines -/

theorem getCur_isSome_of_lt (s : PState) (k : Nat)
    (hk : s.curIdx = some k) (hlt : k < s.steps.length) :
    (getCur s).isSome = true := by
  unfold getCur
  rw [hk]
  show (s.steps.get? k).isSome = true
  rw [List.get?_eq_get hlt]
  rfl

set_option maxHeartbeats 3200000 in
/-- C5 (amended). A line matching `Tool 0 result success: False` processed
while a current step exists *and the reconstructor is not already in the
collecting-result state* increments the error counter exactly once: the
success rule fires (setting the step's success to `false`, entering the
collecting-result state with a cleared buffer) and the generic ERROR
fallback does not additionally fire, so the step's `error` field and every
other state component are untouched.  When the reconstructor is already
collecting, the line is appended to the result buffer instead and the
error counter does not change (see the counterexample). -/
theorem tool_result_success_false_counts_once (s : PState) (k : Nat)
    (hk : s.curIdx = some k) (hlt : k < s.steps.length)
    (hcol : s.collecting = false) :
    processLine s ("Tool 0 result success: False".data) =
      { s with
        errors := s.errors + 1
        steps := updSteps (fun st => { st with success := some false }) k s.steps
        collecting := true
        buffer := [] } := by
  have hsome := getCur_isSome_of_lt s k hk hlt
  unfold processLine
  rw [if_neg (by decide : ¬ ((trim "Tool 0 result success: False".data).isEmpty = true))]
  rw [if_neg (by decide : ¬ (containsSub "Starting benchmark run".data (normalizeLine (trim "Tool 0 result success: False".data)) = true))]
  rw [if_neg (by decide : ¬ ((containsSub "Dataset:".data (normalizeLine (trim "Tool 0 result success: False".data)) && containsSub "Agent:".data (normalizeLine (trim "Tool 0 result success: False".data)) && containsSub "Model:".data (normalizeLine (trim "Tool 0 result success: False".data))) = true))]
  rw [if_neg (by decide : ¬ ((containsSub "HARNESS: Iteration".data (normalizeLine (trim "Tool 0 result success: False".data)) && containsSub "making LLM call".data (normalizeLine (trim "Tool 0 result success: False".data))) = true))]
  rw [if_neg (by simp [(show containsSub "HARNESS: Tool call".data (normalizeLine (trim "Tool 0 result success: False".data)) = false by decide)])]
  rw [if_neg (by simp [(show containsSub "HARNESS: Edit target:".data (normalizeLine (trim "Tool 0 result success: False".data)) = false by decide)])]
  rw [if_neg (by simp [(show containsSub "HARNESS: Edit instructions:".data (normalizeLine (trim "Tool 0 result success: False".data)) = false by decide)])]
  rw [if_neg (by simp [(show containsSub "HARNESS: Line edits count:".data (normalizeLine (trim "Tool 0 result success: False".data)) = false by decide)])]
  rw [if_neg (by simp [(show (scanFirst editSplitHere (normalizeLine (trim "Tool 0 result success: False".data))).isSome = false by decide)])]
  rw [if_neg (by simp [(show containsSub "HARNESS: Python syntax validation passed".data (normalizeLine (trim "Tool 0 result success: False".data)) = false by decide)])]
  rw [if_neg (by simp [(show containsSub "HARNESS: Python syntax error".data (normalizeLine (trim "Tool 0 result success: False".data)) = false by decide)])]
  rw [if_neg (by simp [(show containsSub "HARNESS: SYNTAX ERROR at line".data (normalizeLine (trim "Tool 0 result success: False".data)) = false by decide)])]
  rw [if_neg (by simp [(show containsSub "HARNESS: Changes applied:".data (normalizeLine (trim "Tool 0 result success: False".data)) = false by decide)])]
  rw [if_neg (by simp [(show containsSub "HARNESS: Changes that would have been applied:".data (normalizeLine (trim "Tool 0 result success: False".data)) = false by decide)])]
  rw [if_neg (by simp [(show containsSub "HARNESS: Attempted changes:".data (normalizeLine (trim "Tool 0 result success: False".data)) = false by decide)])]
  rw [if_neg (by simp [(show containsSub "HARNESS: Writing".data (normalizeLine (trim "Tool 0 result success: False".data)) = false by decide)])]
  rw [if_neg (by simp [hcol])]
  rw [if_pos (by rw [Bool.and_eq_true]; exact ⟨by decide, hsome⟩)]
  rw [(by decide : (normalizeLine (trim "Tool 0 result success: False".data)) = "Tool 0 result success: False".data)]
  unfold rule6
  rw [(by decide :
    scanFirst matchT0Here "Tool 0 result success: False".data = some ("False".data))]
  simp only [(by decide : (toLowerStr "False".data == "true".data) = false),
    Bool.false_eq_true, if_false]
  unfold setCur
  rw [hk]

theorem tool_result_success_false_counts_once_witness :
    processLine
      { taskName := "t".data, modelName := "m".data, totalIterations := 1,
         toolCalls := 1, errors := 0,
         steps := [{ type := "iteration".data, content := "Executing bash".data,
                     iteration := 1, success := none, timestamp := none,
                     toolCall := some "bash".data, error := none,
                     toolDetails := {}, toolResult := [] }],
         currentIteration := some 1, curIdx := some 0, collecting := false,
         buffer := [] }
      ("Tool 0 result success: False".data) =
      { taskName := "t".data, modelName := "m".data, totalIterations := 1,
         toolCalls := 1, errors := 1,
         steps := updSteps (fun st => { st with success := some false }) 0
           [{ type := "iteration".data, content := "Executing bash".data,
              iteration := 1, success := none, timestamp := none,
              toolCall := some "bash".data, error := none,
              toolDetails := {}, toolResult := [] }],
         currentIteration := some 1, curIdx := some 0, collecting := true,
         buffer := [] } :=
  tool_result_success_false_counts_once _ 0 rfl (by decide) rfl

/-- Counterexample to C5 as stated: in the source the collecting-result
branch precedes the success branch, so a second
`Tool 0 result success: False` line arriving while the reconstructor is
already collecting is appended to the result buffer and does *not*
increment the error counter — the content below contains two such lines
while a current step exists, yet `errors = 1`, not 2. -/
theorem tool_result_error_exclusivity_counterexample :
    (parseLogFile "m_t.log".data
      ("HARNESS: Iteration 1 making LLM call\nHARNESS: Tool call 1: bash\nTool 0 result success: False\nTool 0 result success: False".data)).errors = 1 ∧
    ((parseLogFile "m_t.log".data
      ("HARNESS: Iteration 1 making LLM call\nHARNESS: Tool call 1: bash\nTool 0 result success: False\nTool 0 result success: False".data)).steps.map
        fun st => st.toolResult) =
      [["Tool 0 result success: False".data]] := by
  exact ⟨rfl, rfl⟩

/-! ### C8: resolver agreement -/

theorem findKnownAB (f : Str) :
    findKnownB knownModelsB f = (findKnownA knownModelsA f).map Prod.snd := by
  simp only [knownModelsA, knownModelsB, findKnownA, findKnownB]
  cases afterOccur "claude-sonnet-4-5-20250929".data f <;>
    cases afterOccur "gemini_gemini-2.5-pro".data f <;>
      cases afterOccur "gpt-5".data f <;> rfl

theorem scanFB_check (check : Str → Bool) :
    ∀ (l : Str) (accRev a r : Str), scanFB check accRev l = some (a, r) →
      check r = true := by
  intro l
  induction l with
  | nil => intro accRev a r h; simp [scanFB] at h
  | cons c rest ih =>
    intro accRev a r h
    unfold scanFB at h
    by_cases hc : (isSepChar c ∧ ¬ accRev.isEmpty = true ∧ check rest = true)
    · rw [if_pos hc] at h
      simp only [Option.some.injEq, Prod.mk.injEq] at h
      rw [← h.2]
      exact hc.2.2
    · rw [if_neg hc] at h
      exact ih (c :: accRev) a r h

theorem scanFB_some_check_all (check : Str → Bool)
    (clos : ∀ (c : Char) (t : Str), check t = true → check (c :: t) = true) :
    ∀ (l : Str) (accRev a r : Str), scanFB check accRev l = some (a, r) →
      check l = true := by
  intro l
  induction l with
  | nil => intro accRev a r h; simp [scanFB] at h
  | cons c rest ih =>
    intro accRev a r h
    unfold scanFB at h
    by_cases hc : (isSepChar c ∧ ¬ accRev.isEmpty = true ∧ check rest = true)
    · exact clos c rest hc.2.2
    · rw [if_neg hc] at h
      exact clos c rest (ih (c :: accRev) a r h)

theorem scanFB_agree (check₁ check₂ : Str → Bool)
    (mono : ∀ t, check₁ t = true → check₂ t = true)
    (clos : ∀ (c : Char) (t : Str), check₁ t = true → check₁ (c :: t) = true) :
    ∀ (l : Str) (accRev a r : Str), scanFB check₁ accRev l = some (a, r) →
      scanFB check₂ accRev l = some (a, r) := by
  intro l
  induction l with
  | nil => intro accRev a r h; simp [scanFB] at h
  | cons c rest ih =>
    intro accRev a r h
    unfold scanFB at h ⊢
    by_cases hc : (isSepChar c ∧ ¬ accRev.isEmpty = true ∧ check₁ rest = true)
    · rw [if_pos hc] at h
      rw [if_pos ⟨hc.1, hc.2.1, mono rest hc.2.2⟩]
      exact h
    · rw [if_neg hc] at h
      have hrec := ih (c :: accRev) a r h
      by_cases hc₂ : (isSepChar c ∧ ¬ accRev.isEmpty = true ∧ check₂ rest = true)
      · exfalso
        have h₁ : check₁ rest = true :=
          scanFB_some_check_all check₁ clos rest (c :: accRev) a r h
        exact hc ⟨hc₂.1, hc₂.2.1, h₁⟩
      · rw [if_neg hc₂]
        exact hrec

theorem extTail_cons (c : Char) (t : Str) (h : extTail t = true) :
    extTail (c :: t) = true := by
  unfold extTail at h ⊢
  simp only [Bool.and_eq_true, decide_eq_true_eq, Bool.or_eq_true] at h ⊢
  obtain ⟨h₁, h₂⟩ := h
  refine ⟨by simp; omega, ?_⟩
  have hd : (c :: t).length - 4 = (t.length - 4) + 1 := by
    simp only [List.length_cons]; omega
  rw [hd, List.drop_succ_cons]
  exact h₂

theorem extTail_nonempty (t : Str) (h : extTail t = true) :
    nonEmptyTail t = true := by
  unfold extTail at h
  unfold nonEmptyTail
  simp only [Bool.and_eq_true, decide_eq_true_eq] at h
  obtain ⟨h₁, _⟩ := h
  cases t with
  | nil => simp at h₁
  | cons c cs => simp

theorem fb1_fb2 (f : Str) (a b : Str) (h : fb1 f = some (a, b)) :
    ∃ r, fb2 f = some (a, r) := by
  unfold fb1 at h
  cases hs : scanFB extTail [] f with
  | none => rw [hs] at h; simp at h
  | some ar =>
    obtain ⟨a', r⟩ := ar
    rw [hs] at h
    have ha : a' = a := by
      have h' := h
      simp only [Option.map] at h'
      exact (Prod.mk.injEq _ _ _ _ ▸ (Option.some.injEq _ _ ▸ h')).1
    refine ⟨r, ?_⟩
    unfold fb2
    rw [scanFB_agree extTail nonEmptyTail extTail_nonempty extTail_cons f [] a' r hs]
    rw [ha]

theorem scanFB_exact_acc (check : Str → Bool) (c : Char) (t : Str)
    (hc : isSepChar c = true) (ht : check t = true) :
    ∀ (a accRev : Str), (∀ x ∈ a, isSepChar x = false) →
      ¬ (accRev.reverse ++ a) = [] →
      scanFB check accRev (a ++ c :: t) = some (accRev.reverse ++ a, t) := by
  intro a
  induction a with
  | nil =>
    intro accRev _ hne
    have hacc : ¬ accRev.isEmpty = true := by
      intro hemp
      rw [List.isEmpty_iff] at hemp
      exact hne (by simp [hemp])
    show scanFB check accRev (c :: t) = _
    conv_lhs => rw [scanFB]
    rw [if_pos ⟨hc, hacc, ht⟩]
    simp
  | cons x xs ih =>
    intro accRev hns hne
    have hx : isSepChar x = false := hns x (by simp)
    show scanFB check accRev (x :: (xs ++ c :: t)) = _
    conv_lhs => rw [scanFB]
    rw [if_neg (by simp [hx])]
    rw [ih (x :: accRev) (fun y hy => hns y (by simp [hy])) (by simp)]
    congr 1
    simp

theorem fb3_fb2 (f : Str) (a t : Str) (h : fb3 f = some (a, t)) :
    fb2 f = some (a, t) := by
  unfold fb3 at h
  cases hd : f.dropWhile (fun c => ¬ isSepChar c) with
  | nil => rw [hd] at h; simp at h
  | cons c ct =>
    rw [hd] at h
    dsimp only at h
    by_cases hcond : (¬ (f.takeWhile fun c => ¬ isSepChar c).isEmpty = true ∧
        ¬ ct.isEmpty = true)
    · rw [if_pos hcond] at h
      simp only [Option.some.injEq, Prod.mk.injEq] at h
      obtain ⟨ha, hct⟩ := h
      have hsplit : f = (f.takeWhile fun c => ¬ isSepChar c) ++ (c :: ct) := by
        conv_lhs => rw [← List.takeWhile_append_dropWhile
          (p := fun c => ¬ isSepChar c) (l := f)]
        rw [hd]
      have hsep : isSepChar c = true := by
        have hh := dropWhile_head_false (p := fun c => ¬ isSepChar c) (l := f)
        rw [hd] at hh
        have h' := hh c (by simp)
        simpa using h'
      have hchk : nonEmptyTail ct = true := by
        unfold nonEmptyTail
        simpa using hcond.2
      have hnonsep : ∀ x ∈ f.takeWhile (fun c => ¬ isSepChar c), isSepChar x = false := by
        intro x hx
        have hx' := List.mem_takeWhile_imp hx
        simpa using hx'
      have hne : ¬ (([] : Str).reverse ++ f.takeWhile (fun c => ¬ isSepChar c)) = [] := by
        simp only [List.reverse_nil, List.nil_append]
        intro h0
        exact hcond.1 (by rw [h0]; rfl)
      unfold fb2
      conv_lhs => rw [hsplit]
      rw [scanFB_exact_acc nonEmptyTail c ct hsep hchk
        (f.takeWhile fun c => ¬ isSepChar c) [] hnonsep hne]
      simp only [List.reverse_nil, List.nil_append]
      rw [ha, hct]
    · rw [if_neg hcond] at h
      simp at h

theorem fb1_ne (f a b : Str) (h : fb1 f = some (a, b)) : b.isEmpty = false := by
  unfold fb1 at h
  cases hs : scanFB extTail [] f with
  | none => rw [hs] at h; simp at h
  | some ar =>
    obtain ⟨a', r⟩ := ar
    rw [hs] at h
    have hext : extTail r = true := scanFB_check extTail f [] a' r hs
    unfold extTail at hext
    simp only [Bool.and_eq_true, decide_eq_true_eq] at hext
    have h5 : 5 ≤ r.length := hext.1
    have hb : r.take (r.length - 4) = b := by
      have h' := h
      simp only [Option.map] at h'
      exact (Prod.mk.injEq _ _ _ _ ▸ (Option.some.injEq _ _ ▸ h')).2
    rw [← hb]
    have hpos : 0 < (r.take (r.length - 4)).length := by
      simp only [List.length_take]
      omega
    cases hq : (r.take (r.length - 4)).isEmpty with
    | false => rfl
    | true =>
      rw [List.isEmpty_iff] at hq
      rw [hq] at hpos
      simp at hpos

theorem fb2_ne (f a b : Str) (h : fb2 f = some (a, b)) : b.isEmpty = false := by
  unfold fb2 at h
  have hc := scanFB_check nonEmptyTail f [] a b h
  unfold nonEmptyTail at hc
  simp only [decide_eq_true_eq] at hc
  cases hq : b.isEmpty with
  | false => rfl
  | true => exact absurd hq hc

theorem fb3_ne (f a t : Str) (h : fb3 f = some (a, t)) : t.isEmpty = false := by
  unfold fb3 at h
  cases hd : f.dropWhile (fun c => ¬ isSepChar c) with
  | nil => rw [hd] at h; simp at h
  | cons c ct =>
    rw [hd] at h
    dsimp only at h
    by_cases hcond : (¬ (f.takeWhile fun c => ¬ isSepChar c).isEmpty = true ∧
        ¬ ct.isEmpty = true)
    · rw [if_pos hcond] at h
      simp only [Option.some.injEq, Prod.mk.injEq] at h
      rw [← h.2]
      cases hq : ct.isEmpty with
      | false => rfl
      | true => exact absurd hq hcond.2
    · rw [if_neg hcond] at h
      simp at h

theorem chainB_ne : ∀ (cands : List (Option (Str × Str))) (a b : Str),
    fbChainB cands = some (a, b) → b.isEmpty = false := by
  intro cands
  induction cands with
  | nil => intro a b h; simp [fbChainB] at h
  | cons cand rest ih =>
    intro a b h
    cases cand with
    | none =>
      rw [show fbChainB (none :: rest) = fbChainB rest from rfl] at h
      exact ih a b h
    | some p =>
      obtain ⟨x, y⟩ := p
      rw [show fbChainB (some (x, y) :: rest) =
        if ¬ y.isEmpty then some (x, y) else fbChainB rest from rfl] at h
      by_cases hy : ¬ y.isEmpty = true
      · rw [if_pos hy] at h
        simp only [Option.some.injEq, Prod.mk.injEq] at h
        rw [← h.2]
        cases hq : y.isEmpty with
        | false => rfl
        | true => exact absurd hq hy
      · rw [if_neg hy] at h
        exact ih a b h

theorem chainAB (f : Str) (m1 m2 : Str)
    (h : fbChainA [fb1 f, fb2 f, fb3 f] = some (m1, m2)) :
    fbChainB [fb1 f, fb2 f, fb3 f] = some (m1, m2) := by
  cases h1 : fb1 f with
  | some p1 =>
    obtain ⟨a1, b1⟩ := p1
    obtain ⟨r, h2⟩ := fb1_fb2 f a1 b1 h1
    rw [h1] at h
    rw [show fbChainA (some (a1, b1) :: [fb2 f, fb3 f]) =
      if identShape a1 then some (a1, b1) else fbChainA [fb2 f, fb3 f] from rfl] at h
    by_cases hid : identShape a1 = true
    · rw [if_pos hid] at h
      rw [show fbChainB (some (a1, b1) :: [fb2 f, fb3 f]) =
        if ¬ b1.isEmpty then some (a1, b1) else fbChainB [fb2 f, fb3 f] from rfl]
      rw [if_pos (by simp [fb1_ne f a1 b1 h1])]
      exact h
    · rw [if_neg hid] at h
      exfalso
      rw [h2] at h
      rw [show fbChainA (some (a1, r) :: [fb3 f]) =
        if identShape a1 then some (a1, r) else fbChainA [fb3 f] from rfl] at h
      rw [if_neg hid] at h
      cases h3 : fb3 f with
      | none => rw [h3] at h; simp [fbChainA] at h
      | some p3 =>
        obtain ⟨a3, t3⟩ := p3
        have h23 := fb3_fb2 f a3 t3 h3
        rw [h2] at h23
        have ha3 : a3 = a1 := by
          simp only [Option.some.injEq, Prod.mk.injEq] at h23
          exact h23.1.symm
        rw [h3] at h
        rw [show fbChainA [some (a3, t3)] =
          if identShape a3 then some (a3, t3) else fbChainA [] from rfl] at h
        rw [ha3] at h
        rw [if_neg hid] at h
        simp [fbChainA] at h
  | none =>
    rw [h1] at h
    rw [show fbChainA (none :: [fb2 f, fb3 f]) = fbChainA [fb2 f, fb3 f] from rfl] at h
    rw [show fbChainB (none :: [fb2 f, fb3 f]) = fbChainB [fb2 f, fb3 f] from rfl]
    cases h2 : fb2 f with
    | some p2 =>
      obtain ⟨a2, b2⟩ := p2
      rw [h2] at h
      rw [show fbChainA (some (a2, b2) :: [fb3 f]) =
        if identShape a2 then some (a2, b2) else fbChainA [fb3 f] from rfl] at h
      rw [show fbChainB (some (a2, b2) :: [fb3 f]) =
        if ¬ b2.isEmpty then some (a2, b2) else fbChainB [fb3 f] from rfl]
      by_cases hid : identShape a2 = true
      · rw [if_pos hid] at h
        rw [if_pos (by simp [fb2_ne f a2 b2 h2])]
        exact h
      · rw [if_neg hid] at h
        exfalso
        cases h3 : fb3 f with
        | none => rw [h3] at h; simp [fbChainA] at h
        | some p3 =>
          obtain ⟨a3, t3⟩ := p3
          have h23 := fb3_fb2 f a3 t3 h3
          rw [h2] at h23
          have ha3 : a3 = a2 := by
            simp only [Option.some.injEq, Prod.mk.injEq] at h23
            exact h23.1.symm
          rw [h3] at h
          rw [show fbChainA [some (a3, t3)] =
            if identShape a3 then some (a3, t3) else fbChainA [] from rfl] at h
          rw [ha3] at h
          rw [if_neg hid] at h
          simp [fbChainA] at h
    | none =>
      exfalso
      rw [h2] at h
      rw [show fbChainA (none :: [fb3 f]) = fbChainA [fb3 f] from rfl] at h
      cases h3 : fb3 f with
      | none => rw [h3] at h; simp [fbChainA] at h
      | some p3 =>
        obtain ⟨a3, t3⟩ := p3
        have h23 := fb3_fb2 f a3 t3 h3
        rw [h2] at h23
        simp at h23

theorem chainA_none_of_chainB_none (f : Str)
    (h : fbChainB [fb1 f, fb2 f, fb3 f] = none) :
    fbChainA [fb1 f, fb2 f, fb3 f] = none := by
  cases h1 : fb1 f with
  | some p1 =>
    obtain ⟨a1, b1⟩ := p1
    exfalso
    rw [h1] at h
    rw [show fbChainB (some (a1, b1) :: [fb2 f, fb3 f]) =
      if ¬ b1.isEmpty then some (a1, b1) else fbChainB [fb2 f, fb3 f] from rfl] at h
    rw [if_pos (by simp [fb1_ne f a1 b1 h1])] at h
    simp at h
  | none =>
    rw [h1] at h
    rw [show fbChainB (none :: [fb2 f, fb3 f]) = fbChainB [fb2 f, fb3 f] from rfl] at h
    rw [show fbChainA (none :: [fb2 f, fb3 f]) = fbChainA [fb2 f, fb3 f] from rfl]
    cases h2 : fb2 f with
    | some p2 =>
      obtain ⟨a2, b2⟩ := p2
      exfalso
      rw [h2] at h
      rw [show fbChainB (some (a2, b2) :: [fb3 f]) =
        if ¬ b2.isEmpty then some (a2, b2) else fbChainB [fb3 f] from rfl] at h
      rw [if_pos (by simp [fb2_ne f a2 b2 h2])] at h
      simp at h
    | none =>
      rw [show fbChainA (none :: [fb3 f]) = fbChainA [fb3 f] from rfl]
      cases h3 : fb3 f with
      | none => rfl
      | some p3 =>
        obtain ⟨a3, t3⟩ := p3
        exfalso
        have h23 := fb3_fb2 f a3 t3 h3
        rw [h2] at h23
        simp at h23

/-- C8 (corrected): the two filename resolvers agree — title-casing the raw
task id of `getTaskIdFromFilename` yields `parseTrajectoryFilename`'s task —
whenever a known model pattern occurs in the filename, or the
display resolver's fallback chain accepts a pattern, or the task-id
resolver's fallback chain matches nothing.  Outside these cases they can
drift, because `getTaskIdFromFilename` omits the identifier-shape test
that `parseTrajectoryFilename` applies to the model capture. -/
theorem resolver_agreement (f : Str)
    (h : (findKnownA knownModelsA f).isSome = true ∨
         (fbChainA [fb1 f, fb2 f, fb3 f]).isSome = true ∨
         fbChainB [fb1 f, fb2 f, fb3 f] = none) :
    formatTaskIdToTitle (getTaskIdFromFilename f) = (parseTrajectoryFilename f).task := by
  cases hA : findKnownA knownModelsA f with
  | some dr =>
    obtain ⟨d, r⟩ := dr
    have hB : findKnownB knownModelsB f = some r := by
      rw [findKnownAB f, hA]
      rfl
    unfold formatTaskIdToTitle getTaskIdFromFilename parseTrajectoryFilename
    rw [hA, hB]
  | none =>
    have hB : findKnownB knownModelsB f = none := by
      rw [findKnownAB f, hA]
      rfl
    rcases h with h₁ | h₂ | h₃
    · rw [hA] at h₁
      simp at h₁
    · cases hCA : fbChainA [fb1 f, fb2 f, fb3 f] with
      | none =>
        rw [hCA] at h₂
        simp at h₂
      | some p =>
        obtain ⟨m1, m2⟩ := p
        have hCB := chainAB f m1 m2 hCA
        have hne : m2.isEmpty = false := chainB_ne [fb1 f, fb2 f, fb3 f] m1 m2 hCB
        unfold formatTaskIdToTitle getTaskIdFromFilename parseTrajectoryFilename
        rw [hA, hB, hCA, hCB]
        dsimp only
        have hm2 : (if List.isEmpty m2 = true then f else m2) = m2 := if_neg (by simp [hne])
        rw [hm2]
    · have hCA := chainA_none_of_chainB_none f h₃
      unfold formatTaskIdToTitle getTaskIdFromFilename parseTrajectoryFilename
      rw [hA, hB, hCA, h₃]

/-- C8 counterexample: on the filename `7-x.log` the first fallback pattern
matches with model segment `7`, which the task-id resolver accepts but the
display resolver rejects (it fails the identifier-shape test), so the
title-cased task ids differ: `X` versus `7 X`. -/
theorem resolver_disagreement_counterexample :
    formatTaskIdToTitle (getTaskIdFromFilename "7-x.log".data) ≠
      (parseTrajectoryFilename "7-x.log".data).task := by decide

theorem resolver_agreement_witness :
    ((findKnownA knownModelsA "gpt-5_anomaly-detection.log".data).isSome = true ∨
     (fbChainA [fb1 "gpt-5_anomaly-detection.log".data,
                fb2 "gpt-5_anomaly-detection.log".data,
                fb3 "gpt-5_anomaly-detection.log".data]).isSome = true ∨
     fbChainB [fb1 "gpt-5_anomaly-detection.log".data,
               fb2 "gpt-5_anomaly-detection.log".data,
               fb3 "gpt-5_anomaly-detection.log".data] = none) ∧
    formatTaskIdToTitle (getTaskIdFromFilename "gpt-5_anomaly-detection.log".data) =
      (parseTrajectoryFilename "gpt-5_anomaly-detection.log".data).task :=
  ⟨Or.inl (by decide), resolver_agreement _ (Or.inl (by decide))⟩

end IDEArena
